import Mathlib

/-!
Verification development for the xtracto pypx compilation pipeline.

The embedding below translates the final pipeline of the repository:
  - `xtracto/parsing/tokens.py`     (token data model)
  - `xtracto/parsing/tokenizer.py`  (character scanner)
  - `xtracto/parsing/lexer.py`      (comment elision, delimiter grouping,
                                     indent/dedent tracking)
  - `xtracto/parsing/parser.py`     (indentation-driven recursive descent)
  - `xtracto/codegen/html_generator.py` (AST to markup)
  - `xtracto/components/import_resolver.py` (textual import substitution)
  - `xtracto/components/layout_manager.py`  (layout composition)

Strings are modelled on their character lists; character classes model the
ASCII fragment of the Python `str` predicates.  Cursor loops that walk a
list with a position index are written with an explicit fuel argument set
to `length + 1`; each loop iteration of the source consumes at least one
element (proved below where a claim needs it), so the fuel bound is never
reached on the runs the theorems talk about.
-/

set_option maxHeartbeats 1600000
set_option maxRecDepth 8192

namespace Xtracto

/-- Token types, from the TokenType enumeration in parsing/tokens.py. -/
inductive TokType where
  | INDENT | NEWLINE | DEDENT | EOF
  | IDENTIFIER | TEXT
  | COMMENT_START | COMMENT_END | COMMENT
  | ATTR_START | ATTR_END | ATTR_CONTENT
  | VAR_START | VAR_END | VAR_CONTENT
  | IMPORT_START | IMPORT_END | IMPORT_PARAMS | IMPORT_CONTENT
  | JINJA_BLOCK_START | JINJA_BLOCK_END | JINJA_BLOCK
  | JINJA_COMMENT_START | JINJA_COMMENT_END | JINJA_COMMENT
  | EQUALS | WHITESPACE | LINE_CONTINUATION
deriving DecidableEq, Repr

/-- Token, from parsing/tokens.py (the source_file diagnostic field is
omitted: no modelled behaviour reads it). -/
structure Tok where
  type : TokType
  value : String
  line : Nat
  column : Nat
deriving DecidableEq, Repr

/-- ASCII fragment of Python str.isalpha. -/
def pyIsAlpha (c : Char) : Bool := c.isAlpha

/-- ASCII fragment of Python str.isalnum. -/
def pyIsAlnum (c : Char) : Bool := c.isAlphanum

/-- Python whitespace, for str.strip, str.split and the regex class \s
(ASCII fragment). -/
def isPySpace (c : Char) : Bool :=
  c = ' ' || c = '\t' || c = '\n' || c = '\r' || c = '\x0b' || c = '\x0c'

/-- Two-character delimiter table from Tokenizer.DELIMITERS, mapping the
pair to the token type that is emitted (the first entry of each tuple). -/
def delimType (c1 c2 : Char) : Option TokType :=
  if c1 = ':' && c2 = ':' then some .COMMENT_START
  else if c1 = '\x7b' && c2 = '\x7b' then some .VAR_START
  else if c1 = '\x7d' && c2 = '\x7d' then some .VAR_END
  else if c1 = ';' && c2 = ';' then some .ATTR_START
  else if c1 = '[' && c2 = '[' then some .IMPORT_START
  else if c1 = ']' && c2 = ']' then some .IMPORT_END
  else if c1 = '|' && c2 = '|' then some .IMPORT_PARAMS
  else if c1 = '\x7b' && c2 = '%' then some .JINJA_BLOCK_START
  else if c1 = '%' && c2 = '\x7d' then some .JINJA_BLOCK_END
  else if c1 = '\x7b' && c2 = '#' then some .JINJA_COMMENT_START
  else if c1 = '#' && c2 = '\x7d' then some .JINJA_COMMENT_END
  else none

/-- peek_string(2) delimiter membership test (a final single character never
equals a two-character delimiter, as in the Python slice comparison). -/
def isDelimAt : List Char → Bool
  | c1 :: c2 :: _ => (delimType c1 c2).isSome
  | _ => false

/-- Tokenizer._scan_text_until_delimiter: collect characters until a
two-character delimiter or a newline; returns the value, the remaining
characters and the column after the run (the line never changes because the
scan stops at every newline). -/
def scanTextUntilDelim : List Char → Nat → String × List Char × Nat
  | [], col => ("", [], col)
  | c :: cs, col =>
    if isDelimAt (c :: cs) then ("", c :: cs, col)
    else if c = '\n' then ("", c :: cs, col)
    else
      let r := scanTextUntilDelim cs (col + 1)
      (String.singleton c ++ r.1, r.2.1, r.2.2)

/-- Value-collection loop of Tokenizer._scan_identifier_or_text: collect
identifier-shaped characters, and on the first other character fall through
to text collection and stop. -/
def scanIdentCollect : List Char → Nat → String × List Char × Nat
  | [], col => ("", [], col)
  | c :: cs, col =>
    if isDelimAt (c :: cs) then ("", c :: cs, col)
    else if c = '\n' then ("", c :: cs, col)
    else if pyIsAlnum c || c = '_' || c = '-' || c = '!' then
      let r := scanIdentCollect cs (col + 1)
      (String.singleton c ++ r.1, r.2.1, r.2.2)
    else scanTextUntilDelim (c :: cs) col

/-- The reduction value.replace("-","").replace("_","").replace("!","")
.replace(" ","") from Tokenizer._scan_identifier_or_text. -/
def dropSepChars (s : String) : List Char :=
  s.data.filter (fun c => !(c = '-' || c = '_' || c = '!' || c = ' '))

/-- Python str.isalnum on the reduced value (the empty string is not
alphanumeric in Python). -/
def reducedIsAlnum (s : String) : Bool :=
  !(dropSepChars s).isEmpty && (dropSepChars s).all pyIsAlnum

/-- First element of Python value.split(): skip leading whitespace, take
until whitespace.  Used only when the value contains a space, in which case
split() is nonempty because the value never starts with whitespace there. -/
def firstWsWord (s : String) : String :=
  ⟨(s.data.dropWhile isPySpace).takeWhile (fun c => !isPySpace c)⟩

/-- Python str.lstrip(). -/
def pyLstrip (s : String) : String := ⟨s.data.dropWhile isPySpace⟩

/-- Python str.strip(). -/
def pyStrip (s : String) : String :=
  ⟨((s.data.dropWhile isPySpace).reverse.dropWhile isPySpace).reverse⟩

/-- Tokenizer._is_valid_element_name: a pure shape check — nonempty, first
character a letter or '!', remaining characters alphanumeric, '-' or '_'.
There is no membership test against any HTML element-name set. -/
def isValidElementName (name : String) : Bool :=
  match name.data with
  | [] => false
  | c :: cs =>
    (pyIsAlpha c || c = '!') && cs.all (fun x => pyIsAlnum x || x = '-' || x = '_')

/-- Emission step of Tokenizer._scan_identifier_or_text once the value has
been collected, with the recorded start line and start column. -/
def emitIdentOrText (value : String) (sl sc : Nat) : List Tok :=
  if value = "" then []
  else if reducedIsAlnum value then
    let fw := if value.data.contains ' ' then firstWsWord value else value
    if isValidElementName fw then
      let rest := pyLstrip ⟨value.data.drop fw.length⟩
      ⟨.IDENTIFIER, fw, sl, sc⟩ ::
        (if rest = "" then [] else [⟨.TEXT, rest, sl, sc + fw.length + 1⟩])
    else [⟨.TEXT, value, sl, sc⟩]
  else [⟨.TEXT, value, sl, sc⟩]

/-- Tokenizer._scan_indentation: immediately after a newline, emit one
INDENT token holding a nonempty run of leading spaces; the start column is
1 and the column afterwards is 1 + run length. -/
def scanIndentation (s : List Char) (line : Nat) : List Tok × List Char × Nat :=
  let ind := s.takeWhile (fun c => c = ' ')
  let rest := s.dropWhile (fun c => c = ' ')
  if ind.isEmpty then ([], rest, 1)
  else ([⟨.INDENT, ⟨ind⟩, line, 1⟩], rest, 1 + ind.length)

/-- Head delimiter recognition for Tokenizer._scan_token: the matched type,
the second character and the remaining input. -/
def delimHead : List Char → Option (TokType × Char × List Char)
  | c1 :: c2 :: cs => (delimType c1 c2).map (fun ty => (ty, c2, cs))
  | _ => none

/-- Tokenizer._scan_token: one scan step.  Returns the emitted tokens, the
remaining characters and the updated line and column. -/
def scanToken (s : List Char) (line col : Nat) : List Tok × List Char × Nat × Nat :=
  match s with
  | [] => ([], [], line, col)
  | c :: cs =>
    if c = '\n' then
      let r := scanIndentation cs (line + 1)
      (⟨.NEWLINE, "\n", line, col⟩ :: r.1, r.2.1, line + 1, r.2.2)
    else
      match delimHead (c :: cs) with
      | some (ty, c2, cs') => ([⟨ty, ⟨[c, c2]⟩, line, col⟩], cs', line, col + 2)
      | none =>
        if pyIsAlpha c || c = '_' || c = '!' then
          let r := scanIdentCollect (c :: cs) col
          (emitIdentOrText r.1 line col, r.2.1, line, r.2.2)
        else if c = ' ' then ([], cs, line, col + 1)
        else
          let r := scanTextUntilDelim (c :: cs) col
          (if r.1 = "" then [] else [⟨.TEXT, r.1, line, col⟩], r.2.1, line, r.2.2)

/-- Tokenizer.tokenize main loop, fueled by the source length: every scan
step consumes at least one character (theorem scanToken_progress below), so
fuel length + 1 covers every iteration including the final emptiness test. -/
def scanAllF : Nat → List Char → Nat → Nat → List Tok × Nat × Nat
  | 0, _, line, col => ([], line, col)
  | _ + 1, [], line, col => ([], line, col)
  | fuel + 1, c :: cs, line, col =>
    let r := scanToken (c :: cs) line col
    let rest := scanAllF fuel r.2.1 r.2.2.1 r.2.2.2
    (r.1 ++ rest.1, rest.2)

/-- Python str.expandtabs(4): pad each tab to the next multiple-of-4 column;
the column resets on newline and carriage return.  The subsequent
source.replace("\t", "    ") in Tokenizer.__init__ is a no-op because the
expansion leaves no tabs. -/
def expandTabs : List Char → Nat → List Char
  | [], _ => []
  | c :: cs, col =>
    if c = '\t' then
      let k := 4 - col % 4
      List.replicate k ' ' ++ expandTabs cs (col + k)
    else if c = '\n' || c = '\r' then c :: expandTabs cs 0
    else c :: expandTabs cs (col + 1)

/-- Tokenizer.tokenize on an already tab-expanded character list: the scan
loop followed by the single EOF token at the final position. -/
def tokenizeChars (s : List Char) : List Tok :=
  let r := scanAllF (s.length + 1) s 1 1
  r.1 ++ [⟨.EOF, "", r.2.1, r.2.2⟩]

/-- Tokenizer construction plus tokenize: tab expansion, then the scan. -/
def tokenizeSource (s : String) : List Tok :=
  tokenizeChars (expandTabs s.data 0)

/-- Lexer error from core/errors.py as observed through the pipeline: the
message and the cited source location. -/
structure LexErr where
  msg : String
  line : Nat
  column : Nat
deriving DecidableEq, Repr

/-- Lexer._skip_comment after the start token has been consumed: consume
tokens until the next COMMENT_START (the delimiter is symmetric) or the end
of the token list, emitting nothing.  An EOF token is consumed like any
other token, so an unclosed comment silently elides the rest of the stream
and raises no error. -/
def skipCommentLoop : List Tok → List Tok
  | [] => []
  | t :: ts => if t.type = .COMMENT_START then ts else skipCommentLoop ts

/-- Lexer._group_variable collection loop: concatenate token text until
VAR_END; an EOF token raises the unclosed-construct error at the start
token location; running off the list end emits the content like VAR_END. -/
def groupVarLoop (st : Tok) : List Tok → List String → Except LexErr (String × List Tok)
  | [], parts => .ok (pyStrip (String.join parts), [])
  | t :: ts, parts =>
    if t.type = .VAR_END then .ok (pyStrip (String.join parts), ts)
    else if t.type = .EOF then
      .error ⟨"Unclosed variable block", st.line, st.column⟩
    else groupVarLoop st ts (parts ++ [t.value])

/-- Lexer._group_attribute collection loop (the ;; delimiter is symmetric,
so the closing token type is ATTR_START). -/
def groupAttrLoop (st : Tok) : List Tok → List String → Except LexErr (String × List Tok)
  | [], parts => .ok (pyStrip (String.join parts), [])
  | t :: ts, parts =>
    if t.type = .ATTR_START then .ok (pyStrip (String.join parts), ts)
    else if t.type = .EOF then
      .error ⟨"Unclosed attribute block", st.line, st.column⟩
    else groupAttrLoop st ts (parts ++ [t.value])

/-- Content assembly of Lexer._group_import: path||params when a || was
seen, else just the path, both sides stripped. -/
def mkImportContent (hasParams : Bool) (pathParts paramParts : List String) : String :=
  let path := pyStrip (String.join pathParts)
  if hasParams then path ++ "||" ++ pyStrip (String.join paramParts) else path

/-- Lexer._group_import collection loop: token text accumulates into the
path before the first IMPORT_PARAMS token and into the params after it. -/
def groupImportLoop (st : Tok) : List Tok → Bool → List String → List String →
    Except LexErr (String × List Tok)
  | [], hasParams, pathParts, paramParts =>
    .ok (mkImportContent hasParams pathParts paramParts, [])
  | t :: ts, hasParams, pathParts, paramParts =>
    if t.type = .IMPORT_END then
      .ok (mkImportContent hasParams pathParts paramParts, ts)
    else if t.type = .IMPORT_PARAMS then
      groupImportLoop st ts true pathParts paramParts
    else if t.type = .EOF then
      .error ⟨"Unclosed import block", st.line, st.column⟩
    else if hasParams then
      groupImportLoop st ts hasParams pathParts (paramParts ++ [t.value])
    else
      groupImportLoop st ts hasParams (pathParts ++ [t.value]) paramParts

/-- Lexer._group_jinja_block collection loop: the content keeps its opening
marker, and regains the closing marker only when JINJA_BLOCK_END is seen. -/
def groupJinjaLoop (st : Tok) : List Tok → List String → Except LexErr (String × List Tok)
  | [], parts => .ok ("\x7b%" ++ String.join parts, [])
  | t :: ts, parts =>
    if t.type = .JINJA_BLOCK_END then
      .ok ("\x7b%" ++ String.join parts ++ "%\x7d", ts)
    else if t.type = .EOF then
      .error ⟨"Unclosed Jinja2 block", st.line, st.column⟩
    else groupJinjaLoop st ts (parts ++ [t.value])

/-- Lexer._skip_jinja_comment loop: consume until JINJA_COMMENT_END; an EOF
token raises; emits nothing. -/
def skipJinjaCommentLoop (st : Tok) : List Tok → Except LexErr (List Tok)
  | [] => .ok []
  | t :: ts =>
    if t.type = .JINJA_COMMENT_END then .ok ts
    else if t.type = .EOF then
      .error ⟨"Unclosed Jinja2 comment", st.line, st.column⟩
    else skipJinjaCommentLoop st ts

/-- Pop loop of Lexer._handle_indent: pop entries wider than the new width,
never popping the base entry, and count the pops (one synthetic DEDENT
each).  The stack is kept top-first. -/
def popWider (w : Nat) : List Nat → List Nat × Nat
  | [] => ([], 0)
  | [base] => ([base], 0)
  | top :: next :: stk =>
    if top > w then
      let r := popWider w (next :: stk)
      (r.1, r.2 + 1)
    else (top :: next :: stk, 0)

/-- Synthetic DEDENT token of Lexer._emit_synthetic, positioned at the
token the cursor rests on. -/
def synthDedent (posTok : Tok) : Tok := ⟨.DEDENT, "", posTok.line, posTok.column⟩

/-- Lexer.process main loop, fueled by the token count (every iteration
consumes at least the current token, so fuel = length + 1 covers all runs
started by lexProcessI; exhaustion reports a sentinel error).  lastOfAll is
the last token of the full input, the position source of _emit_synthetic
once the cursor is past the end.  The counter pushes counts exactly the
indent_stack.append calls performed by _handle_indent. -/
def lexGoF (lastOfAll : Tok) : Nat → List Nat → Nat → List Tok → List Tok →
    Except LexErr (List Tok × Nat)
  | 0, _, _, _, _ => .error ⟨"fuel", 0, 0⟩
  | _ + 1, stack, pushes, acc, [] =>
    .ok (acc ++ List.replicate (stack.length - 1) (synthDedent lastOfAll), pushes)
  | fuel + 1, stack, pushes, acc, t :: ts =>
    match t.type with
    | .COMMENT_START => lexGoF lastOfAll fuel stack pushes acc (skipCommentLoop ts)
    | .VAR_START =>
      match groupVarLoop t ts [] with
      | .error e => .error e
      | .ok (content, rest) =>
        lexGoF lastOfAll fuel stack pushes
          (acc ++ [⟨.VAR_CONTENT, content, t.line, t.column⟩]) rest
    | .ATTR_START =>
      match groupAttrLoop t ts [] with
      | .error e => .error e
      | .ok (content, rest) =>
        lexGoF lastOfAll fuel stack pushes
          (acc ++ [⟨.ATTR_CONTENT, content, t.line, t.column⟩]) rest
    | .IMPORT_START =>
      match groupImportLoop t ts false [] [] with
      | .error e => .error e
      | .ok (content, rest) =>
        lexGoF lastOfAll fuel stack pushes
          (acc ++ [⟨.IMPORT_CONTENT, content, t.line, t.column⟩]) rest
    | .JINJA_BLOCK_START =>
      match groupJinjaLoop t ts [] with
      | .error e => .error e
      | .ok (content, rest) =>
        lexGoF lastOfAll fuel stack pushes
          (acc ++ [⟨.JINJA_BLOCK, content, t.line, t.column⟩]) rest
    | .JINJA_COMMENT_START =>
      match skipJinjaCommentLoop t ts with
      | .error e => .error e
      | .ok rest => lexGoF lastOfAll fuel stack pushes acc rest
    | .INDENT =>
      let w := t.value.length
      let top := stack.headD 0
      if w > top then
        lexGoF lastOfAll fuel (w :: stack) (pushes + 1) (acc ++ [t]) ts
      else if w < top then
        let r := popWider w stack
        let posTok := ts.headD lastOfAll
        let acc1 := acc ++ List.replicate r.2 (synthDedent posTok)
        let acc2 := if w > 0 then acc1 ++ [t] else acc1
        lexGoF lastOfAll fuel r.1 pushes acc2 ts
      else lexGoF lastOfAll fuel stack pushes (acc ++ [t]) ts
    | _ => lexGoF lastOfAll fuel stack pushes (acc ++ [t]) ts

/-- Lexer.process with the push-count instrumentation exposed. -/
def lexProcessI (ts : List Tok) : Except LexErr (List Tok × Nat) :=
  lexGoF (ts.getLastD ⟨.EOF, "", 0, 0⟩) (ts.length + 1) [0] 0 [] ts

/-- Lexer(tokens).process(). -/
def lexProcess (ts : List Tok) : Except LexErr (List Tok) :=
  (lexProcessI ts).map (·.1)

/-- Attribute node from parsing/ast_nodes.py. -/
structure PAttr where
  content : String
  line : Nat
  column : Nat
deriving DecidableEq, Repr

/-- AST nodes from parsing/ast_nodes.py; a Document is carried as its list
of top-level children. -/
inductive PNode where
  | el (tagName : String) (isVoid : Bool) (line column : Nat)
      (attrs : List PAttr) (children : List PNode)
  | attrNode (a : PAttr)
  | text (content : String) (line column : Nat)
  | var (name : String) (defaultValue : Option String) (raw : String)
      (line column : Nat)
  | imp (path : String) (params : Option String) (raw : String)
      (line column : Nat)
  | jinja (content : String) (blockType : Option String) (line column : Nat)
deriving Repr

/-- VOID_ELEMENTS, identical in parsing/parser.py and
codegen/html_generator.py. -/
def VOID_ELEMENTS : List String :=
  ["area", "base", "br", "col", "embed", "hr", "img", "input", "link",
   "meta", "param", "source", "track", "wbr"]

/-- HTML_ELEMENTS from parsing/parser.py.  The tokenizer performs no lookup
in this set (see isValidElementName). -/
def HTML_ELEMENTS : List String :=
  ["!DOCTYPE html", "a", "abbr", "acronym", "address", "applet", "article", "aside",
   "audio", "b", "base", "basefont", "bdi", "bdo", "bgsound", "big", "blockquote",
   "body", "br", "button", "canvas", "caption", "center", "cite", "code", "col",
   "colgroup", "data", "datalist", "dd", "del", "details", "dfn", "dialog", "dir",
   "div", "dl", "dt", "em", "embed", "fieldset", "figcaption", "figure", "font",
   "footer", "form", "frame", "frameset", "h1", "h2", "h3", "h4", "h5", "h6",
   "head", "header", "hgroup", "hr", "html", "i", "iframe", "img", "input", "ins",
   "isindex", "kbd", "keygen", "label", "legend", "li", "link", "main", "map",
   "mark", "marquee", "menu", "menuitem", "meta", "meter", "nav", "nobr", "noembed",
   "noframes", "noscript", "object", "ol", "optgroup", "option", "output", "p",
   "param", "picture", "pre", "progress", "q", "rp", "rt", "ruby", "s", "samp",
   "script", "section", "select", "small", "source", "spacer", "span", "strike",
   "strong", "style", "sub", "summary", "sup", "svg", "table", "tbody", "td",
   "template", "textarea", "tfoot", "th", "thead", "time", "title", "tr", "track",
   "tt", "u", "ul", "var", "video", "wbr", "xmp"]

/-- ELEMENTS_WITH_CLOSING_TAG from codegen/html_generator.py. -/
def ELEMENTS_WITH_CLOSING_TAG : List String :=
  ["!DOCTYPE html", "a", "abbr", "acronym", "address", "applet", "article", "aside",
   "audio", "b", "basefont", "bdi", "bdo", "bgsound", "big", "blockquote",
   "body", "bold", "button", "canvas", "caption", "center", "cite", "code",
   "colgroup", "column", "comment", "data", "datalist", "dd", "define", "delete",
   "details", "dialog", "dir", "div", "dl", "dt", "fieldset", "figcaption",
   "figure", "font", "footer", "form", "frame", "frameset", "head", "header",
   "heading", "hgroup", "html", "iframe", "ins", "isindex", "italic", "kbd",
   "keygen", "label", "legend", "list", "main", "mark", "marquee", "menuitem",
   "meter", "nav", "nobreak", "noembed", "noscript", "object", "optgroup",
   "option", "output", "paragraphs", "phrase", "pre", "progress", "q", "rp",
   "rt", "ruby", "s", "samp", "section", "small", "spacer", "span", "strike",
   "strong", "style", "sub", "sup", "summary", "svg", "table", "tbody", "td",
   "template", "tfoot", "th", "thead", "time", "title", "tr", "tt", "underline",
   "var", "video", "xmp",
   "h1", "h2", "h3", "h4", "h5", "h6", "p", "ul", "ol", "li", "script",
   "textarea", "select", "i", "u", "em", "strong"]

/-- ASCII fragment of Python str.lower (written over the character list so
that it reduces in the kernel). -/
def pyLower (s : String) : String := ⟨s.data.map Char.toLower⟩

/-- Python content.split(sep, 1) on a single-character separator, applied
when the separator occurs: the part before the first occurrence and the
part after it. -/
def splitFirstChar (sep : Char) (s : String) : String × String :=
  (⟨s.data.takeWhile (fun c => c ≠ sep)⟩,
   ⟨(s.data.dropWhile (fun c => c ≠ sep)).tail⟩)

/-- Python content.split("||", 1): none when "||" does not occur, otherwise
the parts before and after its first occurrence. -/
def splitFirstPipes : List Char → Option (List Char × List Char)
  | [] => none
  | c :: cs =>
    if c = '|' ∧ cs.head? = some '|' then some ([], cs.tail)
    else (splitFirstPipes cs).map (fun p => (c :: p.1, p.2))

/-- PypxParser._parse_variable on a VAR_CONTENT token. -/
def parseVariableNode (t : Tok) : PNode :=
  let content := t.value
  if content.data.contains '=' then
    let p := splitFirstChar '=' content
    .var (pyStrip p.1) (some (pyStrip p.2)) content t.line t.column
  else .var content none content t.line t.column

/-- PypxParser._parse_import on an IMPORT_CONTENT token. -/
def parseImportNode (t : Tok) : PNode :=
  let content := t.value
  match splitFirstPipes content.data with
  | some p => .imp (pyStrip ⟨p.1⟩) (some (pyStrip ⟨p.2⟩)) content t.line t.column
  | none => .imp content none content t.line t.column

/-- Python list startswith test on character lists. -/
def startsWithChars : List Char → List Char → Bool
  | _, [] => true
  | [], _ :: _ => false
  | c :: cs, p :: ps => c = p && startsWithChars cs ps

/-- Python substring membership (needle, haystack). -/
def containsChars (needle : List Char) : List Char → Bool
  | [] => startsWithChars [] needle
  | c :: cs => startsWithChars (c :: cs) needle || containsChars needle cs

/-- PypxParser._parse_jinja_block on a JINJA_BLOCK token: the block type is
the first whitespace-delimited word of the inner text, when any. -/
def parseJinjaNode (t : Tok) : PNode :=
  let content := t.value
  let blockType :=
    if startsWithChars content.data ['\x7b', '%'] then
      let innerChars :=
        if startsWithChars content.data.reverse ['\x7d', '%'] then
          (content.data.drop 2).take ((content.data.drop 2).length - 2)
        else content.data.drop 2
      let inner := pyStrip ⟨innerChars⟩
      if inner = "" then none else some (firstWsWord inner)
    else none
  .jinja content blockType t.line t.column

/-- Parser cursor end test (PypxParser._at_end): past the end or at an EOF
token. -/
def atEnd : List Tok → Bool
  | [] => true
  | t :: _ => t.type = .EOF

/-- Name of a token type as Python would log it. -/
def tokTypeName : TokType → String
  | .INDENT => "INDENT" | .NEWLINE => "NEWLINE" | .DEDENT => "DEDENT"
  | .EOF => "EOF" | .IDENTIFIER => "IDENTIFIER" | .TEXT => "TEXT"
  | .COMMENT_START => "COMMENT_START" | .COMMENT_END => "COMMENT_END"
  | .COMMENT => "COMMENT"
  | .ATTR_START => "ATTR_START" | .ATTR_END => "ATTR_END"
  | .ATTR_CONTENT => "ATTR_CONTENT"
  | .VAR_START => "VAR_START" | .VAR_END => "VAR_END"
  | .VAR_CONTENT => "VAR_CONTENT"
  | .IMPORT_START => "IMPORT_START" | .IMPORT_END => "IMPORT_END"
  | .IMPORT_PARAMS => "IMPORT_PARAMS" | .IMPORT_CONTENT => "IMPORT_CONTENT"
  | .JINJA_BLOCK_START => "JINJA_BLOCK_START" | .JINJA_BLOCK_END => "JINJA_BLOCK_END"
  | .JINJA_BLOCK => "JINJA_BLOCK"
  | .JINJA_COMMENT_START => "JINJA_COMMENT_START"
  | .JINJA_COMMENT_END => "JINJA_COMMENT_END" | .JINJA_COMMENT => "JINJA_COMMENT"
  | .EQUALS => "EQUALS" | .WHITESPACE => "WHITESPACE"
  | .LINE_CONTINUATION => "LINE_CONTINUATION"

/-- Warning text of the unexpected-token branch of _parse_node
(f-string over TokenType, whose repr is the bare member name). -/
def unexpectedTokenWarning (t : Tok) : String :=
  "Unexpected token type: " ++ tokTypeName t.type

/-- Result of one parser call: value, updated current_indent, remaining
tokens and logged warnings. -/
structure PRes (α : Type) where
  val : α
  ind : Nat
  rest : List Tok
  warns : List String
deriving Repr

/-- Result of the block-children loop of _parse_element_content. -/
structure CRes where
  attrs : List PAttr
  children : List PNode
  ind : Nat
  rest : List Tok
  warns : List String
deriving Repr

/-- Inline-content loop of PypxParser._parse_element_content: same-line
attribute and child tokens until NEWLINE or EOF; any other token type
breaks the loop without being consumed. -/
def parseInline : List Tok → List PAttr → List PNode →
    List PAttr × List PNode × List Tok
  | [], attrs, children => (attrs, children, [])
  | t :: ts, attrs, children =>
    if t.type = .EOF then (attrs, children, t :: ts)
    else if t.type = .NEWLINE then (attrs, children, t :: ts)
    else if t.type = .ATTR_CONTENT then
      parseInline ts (attrs ++ [⟨t.value, t.line, t.column⟩]) children
    else if t.type = .VAR_CONTENT then
      parseInline ts attrs (children ++ [parseVariableNode t])
    else if t.type = .IMPORT_CONTENT then
      parseInline ts attrs (children ++ [parseImportNode t])
    else if t.type = .TEXT then
      parseInline ts attrs (children ++ [.text t.value t.line t.column])
    else (attrs, children, t :: ts)

/-- Call descriptor for the three mutually recursive parser routines
(_parse_node, _parse_element with _parse_element_content, and the
block-children loop): bundling them into one structurally fueled function
keeps kernel reduction available for the concrete pipeline theorems. -/
inductive PCall where
  | node (ind : Nat) (ts : List Tok)
  | element (ind : Nat) (ts : List Tok)
  | childrenLoop (elemIndent ind : Nat) (attrs : List PAttr)
      (children : List PNode) (ts : List Tok)

/-- View of a parser step result as a _parse_node result (the other shape
never occurs for node or element calls). -/
def asNodeRes (ind : Nat) (ts : List Tok) :
    PRes (Option PNode) ⊕ CRes → PRes (Option PNode)
  | .inl r => r
  | .inr _ => ⟨none, ind, ts, []⟩

/-- View of a parser step result as a children-loop result (the other shape
never occurs for childrenLoop calls). -/
def asChildrenRes (ind : Nat) (attrs : List PAttr) (children : List PNode)
    (ts : List Tok) : PRes (Option PNode) ⊕ CRes → CRes
  | .inr c => c
  | .inl _ => ⟨attrs, children, ind, ts, []⟩

/-- The fueled parser step.  PCall.node is PypxParser._parse_node: skip
newlines and dispatch on the current token type, logging and skipping
unknown types.  PCall.element is _parse_element plus
_parse_element_content: consume the IDENTIFIER, read inline content, the
optional newline, then the block children.  PCall.childrenLoop is the
indented-children loop: descend while an INDENT token is wider than the
element indent, attach Attribute children to the attribute list, skip
NEWLINEs, and stop without consuming on DEDENT, a shallower INDENT, EOF or
anything else.  The fuel strictly decreases on every nested call and the
entry point supplies more than any run can use. -/
def parseStepF : Nat → PCall → PRes (Option PNode) ⊕ CRes
  | 0, .node ind ts => .inl ⟨none, ind, ts, []⟩
  | 0, .element ind ts => .inl ⟨none, ind, ts, []⟩
  | 0, .childrenLoop _ ind attrs children ts => .inr ⟨attrs, children, ind, ts, []⟩
  | fuel + 1, .node ind ts =>
    (match ts.dropWhile (fun t => t.type = .NEWLINE) with
     | [] => .inl ⟨none, ind, [], []⟩
     | t :: rest =>
       if t.type = .EOF then .inl ⟨none, ind, t :: rest, []⟩
       else if t.type = .INDENT then parseStepF fuel (.node t.value.length rest)
       else if t.type = .DEDENT then .inl ⟨none, ind, rest, []⟩
       else if t.type = .IDENTIFIER then parseStepF fuel (.element ind (t :: rest))
       else if t.type = .VAR_CONTENT then .inl ⟨some (parseVariableNode t), ind, rest, []⟩
       else if t.type = .IMPORT_CONTENT then .inl ⟨some (parseImportNode t), ind, rest, []⟩
       else if t.type = .JINJA_BLOCK then .inl ⟨some (parseJinjaNode t), ind, rest, []⟩
       else if t.type = .ATTR_CONTENT then
         .inl ⟨some (.attrNode ⟨t.value, t.line, t.column⟩), ind, rest, []⟩
       else if t.type = .TEXT then .inl ⟨some (.text t.value t.line t.column), ind, rest, []⟩
       else .inl ⟨none, ind, rest, [unexpectedTokenWarning t]⟩)
  | fuel + 1, .element ind ts =>
    (match ts with
     | [] => .inl ⟨none, ind, [], []⟩
     | t :: rest =>
       let r1 := parseInline rest [] []
       let afterNl :=
         match r1.2.2 with
         | nl :: more => if nl.type = .NEWLINE then more else nl :: more
         | [] => []
       let r2 := asChildrenRes ind r1.1 r1.2.1 afterNl
         (parseStepF fuel (.childrenLoop ind ind r1.1 r1.2.1 afterNl))
       .inl ⟨some (.el t.value (VOID_ELEMENTS.contains (pyLower t.value)) t.line t.column
           r2.attrs r2.children),
         r2.ind, r2.rest, r2.warns⟩)
  | fuel + 1, .childrenLoop elemIndent ind attrs children ts =>
    (match ts with
     | [] => .inr ⟨attrs, children, ind, [], []⟩
     | t :: rest =>
       if t.type = .EOF then .inr ⟨attrs, children, ind, t :: rest, []⟩
       else if t.type = .INDENT then
         if t.value.length > elemIndent then
           let r := asNodeRes t.value.length rest
             (parseStepF fuel (.node t.value.length rest))
           match r.val with
           | some (.attrNode a) =>
             let next := asChildrenRes r.ind (attrs ++ [a]) children r.rest
               (parseStepF fuel (.childrenLoop elemIndent r.ind (attrs ++ [a]) children r.rest))
             .inr ⟨next.attrs, next.children, next.ind, next.rest, r.warns ++ next.warns⟩
           | some n =>
             let next := asChildrenRes r.ind attrs (children ++ [n]) r.rest
               (parseStepF fuel (.childrenLoop elemIndent r.ind attrs (children ++ [n]) r.rest))
             .inr ⟨next.attrs, next.children, next.ind, next.rest, r.warns ++ next.warns⟩
           | none =>
             let next := asChildrenRes r.ind attrs children r.rest
               (parseStepF fuel (.childrenLoop elemIndent r.ind attrs children r.rest))
             .inr ⟨next.attrs, next.children, next.ind, next.rest, r.warns ++ next.warns⟩
         else .inr ⟨attrs, children, ind, t :: rest, []⟩
       else if t.type = .DEDENT then .inr ⟨attrs, children, ind, t :: rest, []⟩
       else if t.type = .NEWLINE then
         parseStepF fuel (.childrenLoop elemIndent ind attrs children rest)
       else .inr ⟨attrs, children, ind, t :: rest, []⟩)

/-- PypxParser._parse_node, fueled. -/
def parseNodeF (fuel ind : Nat) (ts : List Tok) : PRes (Option PNode) :=
  asNodeRes ind ts (parseStepF fuel (.node ind ts))

/-- Result of PypxParser.parse: document children, final indent state,
remaining tokens and warnings. -/
structure DRes where
  nodes : List PNode
  ind : Nat
  rest : List Tok
  warns : List String
deriving Repr

/-- PypxParser.parse top-level loop, fueled. -/
def parseDocF : Nat → Nat → List Tok → DRes
  | 0, ind, ts => ⟨[], ind, ts, []⟩
  | fuel + 1, ind, ts =>
    if atEnd ts then ⟨[], ind, ts, []⟩
    else
      let r := parseNodeF fuel ind ts
      let next := parseDocF fuel r.ind r.rest
      ⟨(match r.val with | some n => [n] | none => []) ++ next.nodes,
       next.ind, next.rest, r.warns ++ next.warns⟩

/-- PypxParser(tokens).parse(): the Document children and the warnings. -/
def parseTokens (ts : List Tok) : List PNode × List String :=
  let r := parseDocF (4 * ts.length + 8) 0 ts
  (r.nodes, r.warns)

/-- Variable.to_jinja from ast_nodes.py. -/
def varToJinja (name : String) (dv : Option String) : String :=
  match dv with
  | some d => "\x7b\x7b " ++ name ++ " | default(\x27" ++ d ++ "\x27) \x7d\x7d"
  | none => "\x7b\x7b " ++ name ++ " \x7d\x7d"

mutual

/-- HTMLGenerator visitor dispatch (visit_element, visit_attribute,
visit_text, visit_variable, visit_import, visit_jinja_block). -/
def genNode : PNode → String
  | .el tag _ _ _ attrs children =>
    let tagLower := pyLower tag
    let isVoid := VOID_ELEMENTS.contains tagLower
    let isKnown := ELEMENTS_WITH_CLOSING_TAG.contains tagLower || isVoid
    let hasChildren := !children.isEmpty
    let hasAttrs := !attrs.isEmpty
    if !isKnown && !hasChildren && !hasAttrs then tag ++ "\n"
    else
      "<" ++ tag ++ String.join (attrs.map (fun a => " " ++ a.content)) ++
      (if isVoid && !hasChildren then " />"
       else if !hasChildren && isKnown then "></" ++ tag ++ ">"
       else if !hasChildren then " />"
       else ">" ++ genList children ++ "</" ++ tag ++ ">")
  | .attrNode a => " " ++ a.content
  | .text content _ _ => content
  | .var name dv _ _ _ => varToJinja name dv
  | .imp path params _ _ _ =>
    match params with
    | some p => "[[" ++ path ++ "||" ++ p ++ "]]"
    | none => "[[" ++ path ++ "]]"
  | .jinja content _ _ _ => content ++ "\n"

/-- HTMLGenerator.visit_document / child concatenation. -/
def genList : List PNode → String
  | [] => ""
  | n :: ns => genNode n ++ genList ns

end

/-- The pipeline of the functional claims:
generate(parse(lex(tokenize(s)))). -/
def compilePipeline (s : String) : Except LexErr String :=
  (lexProcess (tokenizeSource s)).map (fun ts => genList (parseTokens ts).1)

/-- Character class [a-zA-Z0-9. _/\\-] of group 1 of
ImportResolver.IMPORT_PATTERN. -/
def isImportNameChar (c : Char) : Bool :=
  pyIsAlpha c || c.isDigit || c = '.' || c = ' ' || c = '_' ||
  c = '/' || c = '\\' || c = '-'

/-- Candidate remainders of a greedy regex step over a character class,
longest consumption first. -/
def greedyStarSplits (p : Char → Bool) (s : List Char) : List (List Char) :=
  let m := (s.takeWhile p).length
  (List.range (m + 1)).map (fun i => s.drop (m - i))

/-- Candidate remainders of the greedy \s* steps of IMPORT_PATTERN. -/
def spaceSplits (s : List Char) : List (List Char) :=
  greedyStarSplits isPySpace s

/-- Candidate captures of the greedy one-or-more class step of group 1,
longest first, never empty. -/
def classSplits (s : List Char) : List (List Char × List Char) :=
  let m := (s.takeWhile isImportNameChar).length
  (List.range m).map (fun i => (s.take (m - i), s.drop (m - i)))

/-- Candidate captures of the lazy (.*?) step of group 2, shortest first;
the dot does not cross a newline. -/
def lazyDotSplits (s : List Char) : List (List Char × List Char) :=
  let m := (s.takeWhile (fun c => c ≠ '\n')).length
  (List.range (m + 1)).map (fun i => (s.take i, s.drop i))

/-- Final step of IMPORT_PATTERN: \s* then the closing brackets. -/
def matchClosePart (g1 : List Char) (g2 : Option (List Char)) (s : List Char) :
    Option (List Char × Option (List Char) × List Char) :=
  (spaceSplits s).findSome? fun r =>
    if startsWithChars r [']', ']'] then some (g1, g2, r.drop 2) else none

/-- Optional parameter part of IMPORT_PATTERN: the literal bars, \s*, the
lazy group 2 and the close. -/
def matchParamsPart (g1 : List Char) (s : List Char) :
    Option (List Char × Option (List Char) × List Char) :=
  if startsWithChars s ['|', '|'] then
    (spaceSplits (s.drop 2)).findSome? fun r4 =>
      (lazyDotSplits r4).findSome? fun g2r5 =>
        matchClosePart g1 (some g2r5.1) g2r5.2
  else none

/-- Backtracking match of the body of ImportResolver.IMPORT_PATTERN after
the literal opening brackets; candidate orders implement the greedy and
lazy priorities of the Python engine (present optional group tried before
absent).  Returns group 1, group 2 when it participated, and the remainder
after the closing brackets. -/
def matchImportBody (s : List Char) :
    Option (List Char × Option (List Char) × List Char) :=
  (spaceSplits s).findSome? fun r1 =>
    (classSplits r1).findSome? fun g1r2 =>
      (spaceSplits g1r2.2).findSome? fun r3 =>
        (matchParamsPart g1r2.1 r3) <|> (matchClosePart g1r2.1 none r3)

/-- ImportResolver._replace_import on one regex match: the group-1 filename
is stripped; a filename already on the visited stack substitutes the empty
string (the circular-import diagnostic path); otherwise the loader content
is spliced, wrapped in a Jinja with-block when a nonempty parameter string
is present; the finally clause discards the filename again.  The loader
models FileManager.get_file_if_valid composed with the nested compile: none
stands for a missing file, and an empty string is treated like a missing
one, exactly as in the source.  Returns the replacement text and the stack
after the call. -/
def replaceImport (loader : String → Option String) (stack : List String)
    (g1 : List Char) (g2 : Option (List Char)) : String × List String :=
  let filename := pyStrip ⟨g1⟩
  if stack.contains filename then ("", stack)
  else
    let stack1 := filename :: stack
    let result :=
      match loader filename with
      | none => ""
      | some cont =>
        if cont = "" then ""
        else
          match g2 with
          | some ps =>
            if (⟨ps⟩ : String) = "" then cont
            else "\x7b% with " ++ (⟨ps⟩ : String) ++ " %\x7d" ++ cont ++
              "\x7b% endwith %\x7d"
          | none => cont
    (result, stack1.erase filename)

/-- One IMPORT_PATTERN.sub pass: scan left to right, replace each
non-overlapping match through _replace_import, continue after the match.
Fueled by the content length: a non-match step consumes one character and a
match consumes at least five. -/
def importSubF (loader : String → Option String) :
    Nat → List String → List Char → String × List String
  | 0, stack, s => (⟨s⟩, stack)
  | _ + 1, stack, [] => ("", stack)
  | fuel + 1, stack, c :: cs =>
    match c, cs with
    | '[', '[' :: rest =>
      (match matchImportBody rest with
       | some (g1, g2, after) =>
         let r := replaceImport loader stack g1 g2
         let next := importSubF loader fuel r.2 after
         (r.1 ++ next.1, next.2)
       | none =>
         let next := importSubF loader fuel stack cs
         (String.singleton c ++ next.1, next.2))
    | _, _ =>
      let next := importSubF loader fuel stack cs
      (String.singleton c ++ next.1, next.2)

/-- One substitution pass over a string with the visited stack threaded. -/
def importSub (loader : String → Option String) (stack : List String)
    (content : String) : String × List String :=
  importSubF loader (content.data.length + 1) stack content.data

/-- MAX_DEPTH from ImportResolver. -/
def MAX_DEPTH : Nat := 100

/-- ImportResolver._resolve_imports: repeat the substitution pass until a
pass changes nothing; the depth counter increments before each pass and the
loop breaks once it exceeds MAX_DEPTH, so at most 100 passes run.  The fuel
argument is exactly that remaining-pass budget. -/
def resolveLoopF (loader : String → Option String) :
    Nat → List String → String → String → String
  | 0, _, _, content => content
  | fuel + 1, stack, old, content =>
    if old = content then content
    else
      let r := importSub loader stack content
      resolveLoopF loader fuel r.2 content r.1

/-- ImportResolver.resolve: reset the visited stack to the current file
(when given) and run the bounded fixed-point loop, with old_content
starting as the empty string. -/
def resolveImports (loader : String → Option String) (currentFile : Option String)
    (content : String) : String :=
  let stack := match currentFile with | some f => [f] | none => []
  resolveLoopF loader MAX_DEPTH stack "" content

/-- CHILDREN_PLACEHOLDERS from LayoutManager. -/
def CHILDREN_PLACEHOLDERS : List String :=
  ["\x7b\x7bchildren\x7d\x7d", "\x7bchildren\x7d"]

/-- Python str.replace(old, new) for a nonempty old: replace every
non-overlapping occurrence left to right, fueled by the length. -/
def pyReplaceF (old new : List Char) : Nat → List Char → List Char
  | 0, s => s
  | _ + 1, [] => []
  | fuel + 1, c :: cs =>
    if startsWithChars (c :: cs) old then
      new ++ pyReplaceF old new fuel ((c :: cs).drop old.length)
    else c :: pyReplaceF old new fuel cs

/-- Python s.replace(old, new) on strings (both placeholders replaced by
apply_layout are nonempty). -/
def pyReplace (s old new : String) : String :=
  ⟨pyReplaceF old.data new.data (s.data.length + 1) s.data⟩

/-- Placeholder loop of LayoutManager.apply_layout: the first placeholder
contained in the layout template wins. -/
def applyPlaceholders : List String → String → String → Option String
  | [], _, _ => none
  | p :: ps, t, content =>
    if containsChars p.data t.data then some (pyReplace t p content)
    else applyPlaceholders ps t content

/-- LayoutManager.apply_layout: layoutTemplate models the result of
get_layout_template (none when no layout is available or loading failed);
the Bool records whether the missing-placeholder warning was logged. -/
def applyLayout (layoutTemplate : Option String) (content : String) :
    String × Bool :=
  match layoutTemplate with
  | none => (content, false)
  | some t =>
    match applyPlaceholders CHILDREN_PLACEHOLDERS t content with
    | some r => (r, false)
    | none => (content, true)

/-! ## Supporting lemmas -/

theorem startsWithChars_iff (l p : List Char) :
    startsWithChars l p = true ↔ p <+: l := by
  induction p generalizing l with
  | nil => simp [startsWithChars, List.nil_prefix]
  | cons x xs ih =>
    cases l with
    | nil => simp [startsWithChars, List.prefix_nil]
    | cons c cs =>
      simp [startsWithChars, List.cons_prefix_cons, ih, @eq_comm Char c x]

theorem containsChars_iff (n h : List Char) :
    containsChars n h = true ↔ n <:+: h := by
  induction h with
  | nil => cases n <;> simp [containsChars, startsWithChars, List.infix_nil]
  | cons c cs ih =>
    simp [containsChars, startsWithChars_iff, ih, List.infix_cons_iff]

/-! ## Claim theorems -/

/-- C2: for the single bare known-tag input s = "div", the full pipeline
generate(parse(lex(tokenize(s)))) yields exactly the string
"&lt;div&gt;&lt;/div&gt;". -/
theorem C2_pipeline_div : compilePipeline "div" = .ok "<div></div>" := by
  rfl

/-- C6: compiling the two-line source "h1", newline, four spaces, "Hello"
through tokenize, lex, parse and generate yields exactly
"&lt;h1&gt;Hello\n&lt;/h1&gt;". -/
theorem C6_pipeline_h1_hello :
    compilePipeline "h1\n    Hello" = .ok "<h1>Hello\n</h1>" := by
  rfl

/-- C7: apply_layout returns the page content unchanged when no layout
template is available; a layout template containing neither children
placeholder logs the warning and returns the content unchanged; a present
placeholder is replaced by the page content (shown both through the
source replace routine and on a concrete layout). -/
theorem C7_apply_layout (content t : String)
    (h1 : ¬ ("\x7b\x7bchildren\x7d\x7d".data <:+: t.data))
    (h2 : ¬ ("\x7bchildren\x7d".data <:+: t.data)) :
    applyLayout none content = (content, false) ∧
    applyLayout (some t) content = (content, true) ∧
    (∀ u : String, ("\x7b\x7bchildren\x7d\x7d".data <:+: u.data) →
      applyLayout (some u) content
        = (pyReplace u "\x7b\x7bchildren\x7d\x7d" content, false)) ∧
    applyLayout (some "<html>\x7b\x7bchildren\x7d\x7d</html>") content
      = ("<html>" ++ content ++ "</html>", false) := by
  refine ⟨rfl, ?_, ?_, ?_⟩
  · have c1 : containsChars "\x7b\x7bchildren\x7d\x7d".data t.data = false := by
      rw [← Bool.not_eq_true, containsChars_iff]; exact h1
    have c2 : containsChars "\x7bchildren\x7d".data t.data = false := by
      rw [← Bool.not_eq_true, containsChars_iff]; exact h2
    simp [applyLayout, applyPlaceholders, CHILDREN_PLACEHOLDERS, c1, c2]
  · intro u hu
    have c1 : containsChars "\x7b\x7bchildren\x7d\x7d".data u.data = true :=
      (containsChars_iff _ _).mpr hu
    simp [applyLayout, applyPlaceholders, CHILDREN_PLACEHOLDERS, c1]
  · rfl

/-- Witness for C7 at a placeholder-free layout and a concrete page. -/
theorem C7_apply_layout_witness :
    applyLayout none "page" = ("page", false) ∧
    applyLayout (some "<html>plain</html>") "page" = ("page", true) ∧
    applyLayout (some "<html>\x7b\x7bchildren\x7d\x7d</html>") "page"
      = ("<html>page</html>", false) := by
  obtain ⟨a, b, -, d⟩ := C7_apply_layout "page" "<html>plain</html>"
    (by decide) (by decide)
  exact ⟨a, b, d⟩

/-- One full-text substitution pass viewed as a string transformation (the
visited stack is restored by every _replace_import call, theorem
importSub_stack, so the pass composes as a pure function of the content). -/
def importPass (loader : String → Option String) (stack : List String)
    (content : String) : String :=
  (importSub loader stack content).1

/-- n-fold iteration of the substitution pass. -/
def importPassN (loader : String → Option String) (stack : List String) :
    Nat → String → String
  | 0, c => c
  | n + 1, c => importPassN loader stack n (importPass loader stack c)

/-- The visited stack of ImportResolver.resolve as a function of the
current file. -/
def stackOf : Option String → List String
  | some f => [f]
  | none => []

theorem replaceImport_stack (loader : String → Option String)
    (stack : List String) (g1 : List Char) (g2 : Option (List Char)) :
    (replaceImport loader stack g1 g2).2 = stack := by
  unfold replaceImport
  by_cases h : pyStrip (⟨g1⟩ : String) ∈ stack <;> simp [h]

theorem importSubF_stack (loader : String → Option String) :
    ∀ fuel stack s, (importSubF loader fuel stack s).2 = stack := by
  intro fuel
  induction fuel with
  | zero => intro stack s; rfl
  | succ fuel ih =>
    intro stack s
    cases s with
    | nil => rfl
    | cons c cs =>
      simp only [importSubF]
      split
      · split
        · simp [ih, replaceImport_stack]
        · simp [ih]
      · simp [ih]

theorem importSub_stack (loader : String → Option String)
    (stack : List String) (content : String) :
    (importSub loader stack content).2 = stack :=
  importSubF_stack loader _ stack content.data

/-- The bounded fixed-point loop of _resolve_imports performs some number
of passes within its budget, and stops either at a pass that changes
nothing or because the budget is exhausted. -/
theorem resolveLoopF_iterates (loader : String → Option String)
    (stack : List String) :
    ∀ fuel old content,
      (old = content → importPass loader stack old = old) →
      ∃ n ≤ fuel,
        resolveLoopF loader fuel stack old content
          = importPassN loader stack n content ∧
        (importPass loader stack (importPassN loader stack n content)
            = importPassN loader stack n content ∨ n = fuel) := by
  intro fuel
  induction fuel with
  | zero =>
    intro old content _
    exact ⟨0, Nat.le_refl 0, rfl, Or.inr rfl⟩
  | succ fuel ih =>
    intro old content hfix
    by_cases h : old = content
    · refine ⟨0, Nat.zero_le _, ?_, Or.inl ?_⟩
      · simp [resolveLoopF, h, importPassN]
      · have := hfix h
        rw [h] at this
        exact this
    · have hstep : resolveLoopF loader (fuel + 1) stack old content
          = resolveLoopF loader fuel stack content (importPass loader stack content) := by
        simp only [resolveLoopF, if_neg h]
        rw [importSub_stack]
        rfl
      obtain ⟨n, hn, heq, hside⟩ := ih content (importPass loader stack content)
        (fun he => he.symm)
      refine ⟨n + 1, Nat.succ_le_succ hn, ?_, ?_⟩
      · rw [hstep, heq]; rfl
      · rcases hside with hfp | hf
        · exact Or.inl hfp
        · exact Or.inr (by rw [hf])

/-- Concrete component loader used by the closed conjuncts. -/
def loaderComp : String → Option String :=
  fun n => if n = "comp.pypx" then some "<span>Comp</span>" else none

/-- C5: import resolution always terminates and never raises: a placeholder
naming a file already on the visited stack is replaced by the empty string;
the full-text substitution loop repeats until a pass changes nothing or the
ceiling of MAX_DEPTH = 100 passes is reached; and a self-referential import
(a.pypx importing a.pypx) resolves to the empty string for every loader,
without hanging. -/
theorem C5_import_resolution (loader : String → Option String)
    (currentFile : Option String) (content : String) :
    (∃ n ≤ MAX_DEPTH,
      resolveImports loader currentFile content
        = importPassN loader (stackOf currentFile) n content ∧
      (importPass loader (stackOf currentFile)
          (importPassN loader (stackOf currentFile) n content)
        = importPassN loader (stackOf currentFile) n content ∨ n = MAX_DEPTH)) ∧
    (∀ (st : List String) (g1 : List Char) (g2 : Option (List Char)),
      st.contains (pyStrip ⟨g1⟩) = true →
      (replaceImport loader st g1 g2).1 = "") ∧
    (∀ ld : String → Option String,
      resolveImports ld (some "a.pypx") "[[a.pypx]]" = "") := by
  refine ⟨?_, ?_, ?_⟩
  · have h0 : ("" : String) = content →
        importPass loader (stackOf currentFile) "" = "" := fun _ => rfl
    obtain ⟨n, hn, heq, hside⟩ :=
      resolveLoopF_iterates loader (stackOf currentFile) MAX_DEPTH "" content h0
    have : resolveImports loader currentFile content
        = resolveLoopF loader MAX_DEPTH (stackOf currentFile) "" content := by
      cases currentFile <;> rfl
    exact ⟨n, hn, by rw [this, heq], hside⟩
  · intro st g1 g2 h
    have hm : pyStrip (⟨g1⟩ : String) ∈ st := by simpa using h
    unfold replaceImport
    simp [hm]
  · intro ld
    rfl

/-- Witness for C5 at the concrete loader: the cycle branch yields the
empty string and the self-import resolves to the empty string. -/
theorem C5_import_resolution_witness :
    (["x.pypx"].contains (pyStrip ⟨"x.pypx".data⟩) = true ∧
      (replaceImport loaderComp ["x.pypx"] "x.pypx".data none).1 = "") ∧
    resolveImports loaderComp (some "a.pypx") "[[a.pypx]]" = "" := by
  have h := C5_import_resolution loaderComp (some "a.pypx") "[[a.pypx]]"
  exact ⟨⟨by decide, h.2.1 ["x.pypx"] "x.pypx".data none (by decide)⟩,
    h.2.2 loaderComp⟩

/-- C10: every single import substitution restores the visited-path set it
was given — whether it spliced content, detected a cycle, or found the
file missing — so a substitution pass leaves the set unchanged and two
separate non-nested references to the same component both resolve to its
content instead of being misreported as a cycle. -/
theorem C10_visited_set_restored (loader : String → Option String)
    (stack : List String) (g1 : List Char) (g2 : Option (List Char)) :
    (replaceImport loader stack g1 g2).2 = stack ∧
    (∀ (fuel : Nat) (s : List Char), (importSubF loader fuel stack s).2 = stack) ∧
    resolveImports loaderComp (some "page.pypx")
        "[[comp.pypx]] and [[comp.pypx]]"
      = "<span>Comp</span> and <span>Comp</span>" := by
  refine ⟨replaceImport_stack loader stack g1 g2,
    fun fuel s => importSubF_stack loader fuel stack s, ?_⟩
  rfl

theorem groupVarLoop_eof (st : Tok) :
    ∀ (a : List Tok) (parts : List String) (e : Tok) (b : List Tok),
      (∀ x ∈ a, x.type ≠ .VAR_END ∧ x.type ≠ .EOF) → e.type = .EOF →
      groupVarLoop st (a ++ e :: b) parts
        = .error ⟨"Unclosed variable block", st.line, st.column⟩ := by
  intro a
  induction a with
  | nil =>
    intro parts e b _ he
    simp [groupVarLoop, he]
  | cons t a ih =>
    intro parts e b hx he
    have h1 := hx t (by simp)
    simp [groupVarLoop, h1.1, h1.2,
      ih _ e b (fun x hx2 => hx x (by simp [hx2])) he]

theorem groupAttrLoop_eof (st : Tok) :
    ∀ (a : List Tok) (parts : List String) (e : Tok) (b : List Tok),
      (∀ x ∈ a, x.type ≠ .ATTR_START ∧ x.type ≠ .EOF) → e.type = .EOF →
      groupAttrLoop st (a ++ e :: b) parts
        = .error ⟨"Unclosed attribute block", st.line, st.column⟩ := by
  intro a
  induction a with
  | nil =>
    intro parts e b _ he
    simp [groupAttrLoop, he]
  | cons t a ih =>
    intro parts e b hx he
    have h1 := hx t (by simp)
    simp [groupAttrLoop, h1.1, h1.2,
      ih _ e b (fun x hx2 => hx x (by simp [hx2])) he]

theorem groupImportLoop_eof (st : Tok) :
    ∀ (a : List Tok) (hasParams : Bool) (pathParts paramParts : List String)
      (e : Tok) (b : List Tok),
      (∀ x ∈ a, x.type ≠ .IMPORT_END ∧ x.type ≠ .EOF) → e.type = .EOF →
      groupImportLoop st (a ++ e :: b) hasParams pathParts paramParts
        = .error ⟨"Unclosed import block", st.line, st.column⟩ := by
  intro a
  induction a with
  | nil =>
    intro hasParams pathParts paramParts e b _ he
    simp [groupImportLoop, he]
  | cons t a ih =>
    intro hasParams pathParts paramParts e b hx he
    have h1 := hx t (by simp)
    by_cases hp : t.type = .IMPORT_PARAMS
    · simp [groupImportLoop, h1.1, h1.2, hp,
        ih _ _ _ e b (fun x hx2 => hx x (by simp [hx2])) he]
    · simp only [List.cons_append, groupImportLoop, h1.1, h1.2, hp,
        if_false]
      by_cases hq : hasParams = true <;>
        simp [hq, ih _ _ _ e b (fun x hx2 => hx x (by simp [hx2])) he]

theorem groupJinjaLoop_eof (st : Tok) :
    ∀ (a : List Tok) (parts : List String) (e : Tok) (b : List Tok),
      (∀ x ∈ a, x.type ≠ .JINJA_BLOCK_END ∧ x.type ≠ .EOF) → e.type = .EOF →
      groupJinjaLoop st (a ++ e :: b) parts
        = .error ⟨"Unclosed Jinja2 block", st.line, st.column⟩ := by
  intro a
  induction a with
  | nil =>
    intro parts e b _ he
    simp [groupJinjaLoop, he]
  | cons t a ih =>
    intro parts e b hx he
    have h1 := hx t (by simp)
    simp [groupJinjaLoop, h1.1, h1.2,
      ih _ e b (fun x hx2 => hx x (by simp [hx2])) he]

theorem skipJinjaCommentLoop_eof (st : Tok) :
    ∀ (a : List Tok) (e : Tok) (b : List Tok),
      (∀ x ∈ a, x.type ≠ .JINJA_COMMENT_END ∧ x.type ≠ .EOF) → e.type = .EOF →
      skipJinjaCommentLoop st (a ++ e :: b)
        = .error ⟨"Unclosed Jinja2 comment", st.line, st.column⟩ := by
  intro a
  induction a with
  | nil =>
    intro e b _ he
    simp [skipJinjaCommentLoop, he]
  | cons t a ih =>
    intro e b hx he
    have h1 := hx t (by simp)
    simp [skipJinjaCommentLoop, h1.1, h1.2,
      ih e b (fun x hx2 => hx x (by simp [hx2])) he]

/-- C4 counterexample: the token stream of the source "::" consists of a
COMMENT_START token with no matching end delimiter before its EOF, yet
Lexer.process succeeds (the unclosed comment silently elides the rest of
the stream) instead of raising a LexerError. -/
theorem C4_unclosed_comment_no_error :
    tokenizeSource "::" = [⟨.COMMENT_START, "::", 1, 1⟩, ⟨.EOF, "", 1, 3⟩] ∧
    lexProcess (tokenizeSource "::") = .ok [] := ⟨rfl, rfl⟩

/-- C4 amended: when the lexer cursor reaches a variable, attribute,
import, template-block or template-comment start delimiter whose grouping
scan meets an EOF token before the matching end delimiter, Lexer.process
raises a LexerError citing the opening delimiter location; in particular
the unbalanced input consisting of a variable opener followed by " start"
raises the unclosed-variable error citing line 1.  (An unmatched comment
start "::" raises nothing, see the counterexample.) -/
theorem C4_unclosed_raises (lastOf : Tok) (fuel : Nat) (stack : List Nat)
    (pushes : Nat) (acc : List Tok) (t e : Tok) (a b : List Tok)
    (he : e.type = .EOF) :
    (t.type = .VAR_START → (∀ x ∈ a, x.type ≠ .VAR_END ∧ x.type ≠ .EOF) →
      lexGoF lastOf (fuel + 1) stack pushes acc (t :: (a ++ e :: b))
        = .error ⟨"Unclosed variable block", t.line, t.column⟩) ∧
    (t.type = .ATTR_START → (∀ x ∈ a, x.type ≠ .ATTR_START ∧ x.type ≠ .EOF) →
      lexGoF lastOf (fuel + 1) stack pushes acc (t :: (a ++ e :: b))
        = .error ⟨"Unclosed attribute block", t.line, t.column⟩) ∧
    (t.type = .IMPORT_START → (∀ x ∈ a, x.type ≠ .IMPORT_END ∧ x.type ≠ .EOF) →
      lexGoF lastOf (fuel + 1) stack pushes acc (t :: (a ++ e :: b))
        = .error ⟨"Unclosed import block", t.line, t.column⟩) ∧
    (t.type = .JINJA_BLOCK_START →
      (∀ x ∈ a, x.type ≠ .JINJA_BLOCK_END ∧ x.type ≠ .EOF) →
      lexGoF lastOf (fuel + 1) stack pushes acc (t :: (a ++ e :: b))
        = .error ⟨"Unclosed Jinja2 block", t.line, t.column⟩) ∧
    (t.type = .JINJA_COMMENT_START →
      (∀ x ∈ a, x.type ≠ .JINJA_COMMENT_END ∧ x.type ≠ .EOF) →
      lexGoF lastOf (fuel + 1) stack pushes acc (t :: (a ++ e :: b))
        = .error ⟨"Unclosed Jinja2 comment", t.line, t.column⟩) ∧
    lexProcess (tokenizeSource "\x7b\x7b start")
      = .error ⟨"Unclosed variable block", 1, 1⟩ := by
  refine ⟨?_, ?_, ?_, ?_, ?_, rfl⟩
  · intro ht hx
    simp [lexGoF, ht, groupVarLoop_eof t a [] e b hx he]
  · intro ht hx
    simp [lexGoF, ht, groupAttrLoop_eof t a [] e b hx he]
  · intro ht hx
    simp [lexGoF, ht, groupImportLoop_eof t a false [] [] e b hx he]
  · intro ht hx
    simp [lexGoF, ht, groupJinjaLoop_eof t a [] e b hx he]
  · intro ht hx
    simp [lexGoF, ht, skipJinjaCommentLoop_eof t a e b hx he]

/-- Witness for C4 at a concrete unclosed variable stream. -/
theorem C4_unclosed_raises_witness :
    lexGoF ⟨.EOF, "", 3, 9⟩ 5 [0] 0 []
        [⟨.VAR_START, "\x7b\x7b", 3, 7⟩, ⟨.TEXT, "x", 3, 9⟩, ⟨.EOF, "", 3, 10⟩]
      = .error ⟨"Unclosed variable block", 3, 7⟩ := by
  have h := C4_unclosed_raises ⟨.EOF, "", 3, 9⟩ 4 [0] 0 []
    ⟨.VAR_START, "\x7b\x7b", 3, 7⟩ ⟨.EOF, "", 3, 10⟩ [⟨.TEXT, "x", 3, 9⟩] []
    (by decide)
  exact h.1 (by decide) (by decide)

theorem scanTextUntilDelim_le :
    ∀ (s : List Char) (col : Nat),
      ((scanTextUntilDelim s col).2.1).length ≤ s.length := by
  intro s
  induction s with
  | nil => intro col; simp [scanTextUntilDelim]
  | cons c cs ih =>
    intro col
    by_cases h1 : isDelimAt (c :: cs)
    · simp [scanTextUntilDelim, h1]
    · by_cases h2 : c = '\n'
      · simp [scanTextUntilDelim, h1, h2]
      · simp only [scanTextUntilDelim, h1, h2, if_false, List.length_cons]
        exact (ih _).trans (Nat.le_succ _)

theorem scanTextUntilDelim_lt (c : Char) (cs : List Char) (col : Nat)
    (h1 : ¬ isDelimAt (c :: cs)) (h2 : c ≠ '\n') :
    ((scanTextUntilDelim (c :: cs) col).2.1).length < (c :: cs).length := by
  simp only [scanTextUntilDelim, h1, h2, if_false, List.length_cons]
  exact Nat.lt_succ_of_le (scanTextUntilDelim_le cs (col + 1))

theorem scanIdentCollect_le :
    ∀ (s : List Char) (col : Nat),
      ((scanIdentCollect s col).2.1).length ≤ s.length := by
  intro s
  induction s with
  | nil => intro col; simp [scanIdentCollect]
  | cons c cs ih =>
    intro col
    by_cases h1 : isDelimAt (c :: cs)
    · simp [scanIdentCollect, h1]
    · by_cases h2 : c = '\n'
      · simp [scanIdentCollect, h1, h2]
      · by_cases h3 : pyIsAlnum c || c = '_' || c = '-' || c = '!'
        · simp only [scanIdentCollect, h1, h2, h3, if_false, if_true,
            List.length_cons]
          exact (ih _).trans (Nat.le_succ _)
        · simp only [scanIdentCollect, h1, h2, h3, if_false]
          exact (scanTextUntilDelim_le _ _)

theorem scanIdentCollect_lt (c : Char) (cs : List Char) (col : Nat)
    (h1 : ¬ isDelimAt (c :: cs)) (h2 : c ≠ '\n')
    (h3 : pyIsAlnum c || c = '_' || c = '-' || c = '!') :
    ((scanIdentCollect (c :: cs) col).2.1).length < (c :: cs).length := by
  simp only [scanIdentCollect, h1, h2, h3, if_false, if_true, List.length_cons]
  exact Nat.lt_succ_of_le (scanIdentCollect_le cs (col + 1))

theorem delimHead_none_isDelimAt (s : List Char)
    (h : delimHead s = none) : isDelimAt s = false := by
  cases s with
  | nil => rfl
  | cons c1 cs =>
    cases cs with
    | nil => rfl
    | cons c2 cs' =>
      cases hdt : delimType c1 c2 with
      | none => simp [isDelimAt, hdt]
      | some ty => simp [delimHead, hdt] at h

theorem delimHead_some_shape (c1 : Char) (cs : List Char) (ty : TokType)
    (c2 : Char) (cs' : List Char)
    (h : delimHead (c1 :: cs) = some (ty, c2, cs')) : cs = c2 :: cs' := by
  cases cs with
  | nil => simp [delimHead] at h
  | cons d ds =>
    cases hdt : delimType c1 d with
    | none => simp [delimHead, hdt] at h
    | some a =>
      simp only [delimHead, hdt, Option.map, Option.some.injEq,
        Prod.mk.injEq] at h
      rw [h.2.1, h.2.2]

theorem scanToken_progress (s : List Char) (l c : Nat) (hs : s ≠ []) :
    ((scanToken s l c).2.1).length < s.length := by
  cases s with
  | nil => exact absurd rfl hs
  | cons ch cs =>
    by_cases h1 : ch = '\n'
    · simp only [scanToken, h1, if_true, scanIndentation, List.length_cons]
      refine Nat.lt_succ_of_le ?_
      by_cases he : (cs.takeWhile (fun c => c = ' ')).isEmpty <;>
        simp [he, (List.dropWhile_suffix _).length_le]
    · cases hd : delimHead (ch :: cs) with
      | some v =>
        obtain ⟨ty, c2, cs'⟩ := v
        have hshape := delimHead_some_shape ch cs ty c2 cs' hd
        subst hshape
        simp only [scanToken, h1, if_false, hd, List.length_cons]
        omega
      | none =>
        have hnd : isDelimAt (ch :: cs) = false := delimHead_none_isDelimAt _ hd
        by_cases h3 : (pyIsAlpha ch || ch = '_' || ch = '!') = true
        · have h3' : (pyIsAlnum ch || ch = '_' || ch = '-' || ch = '!') = true := by
            simp only [Bool.or_eq_true, decide_eq_true_eq] at h3 ⊢
            rcases h3 with (ha | hu) | he
            · exact Or.inl (Or.inl (Or.inl (by
                simp [pyIsAlnum, Char.isAlphanum, pyIsAlpha] at ha ⊢
                exact Or.inl ha)))
            · exact Or.inl (Or.inl (Or.inr hu))
            · exact Or.inr he
          simp only [scanToken, h1, if_false, hd, h3, if_true]
          exact scanIdentCollect_lt ch cs c (by simp [hnd]) h1 h3'
        · by_cases h4 : ch = ' '
          · subst h4
            have h3' : pyIsAlpha ' ' = false := by decide
            simp [scanToken, hd, h3']
          · simp only [scanToken, h1, if_false, hd, h3, h4]
            have := scanTextUntilDelim_lt ch cs c (by simp [hnd]) h1
            by_cases hv : (scanTextUntilDelim (ch :: cs) c).1 = "" <;>
              simp_all

theorem delimType_ne_eof (c1 c2 : Char) (ty : TokType)
    (h : delimType c1 c2 = some ty) : ty ≠ .EOF := by
  unfold delimType at h
  split_ifs at h <;> cases h <;> decide

theorem emitIdentOrText_no_eof (v : String) (sl sc : Nat) :
    ∀ t ∈ emitIdentOrText v sl sc, t.type ≠ .EOF := by
  intro t ht hEof
  unfold emitIdentOrText at ht
  by_cases h1 : v = ""
  · simp [h1] at ht
  · by_cases h2 : reducedIsAlnum v = true
    · by_cases hsp : ' ' ∈ v.data
      · by_cases h3 : isValidElementName (firstWsWord v) = true
        · by_cases h4 : pyLstrip ⟨v.data.drop (firstWsWord v).length⟩ = ""
          · simp_all
          · simp [h1, h2, h3, h4, hsp] at ht
            rcases ht with rfl | rfl <;> exact TokType.noConfusion hEof
        · simp_all
      · by_cases h3 : isValidElementName v = true
        · by_cases h4 : pyLstrip ⟨v.data.drop v.length⟩ = ""
          · simp_all
          · simp [h1, h2, h3, h4, hsp] at ht
            rcases ht with rfl | rfl <;> exact TokType.noConfusion hEof
        · simp_all
    · simp_all

theorem scanToken_no_eof (s : List Char) (l c : Nat) :
    ∀ t ∈ (scanToken s l c).1, t.type ≠ .EOF := by
  intro t ht
  cases s with
  | nil => simp [scanToken] at ht
  | cons ch cs =>
    by_cases h1 : ch = '\n'
    · simp only [scanToken, h1, if_true] at ht
      rcases ht with _ | ⟨_, hind⟩
      · simp
      · simp only [scanIndentation] at hind
        split_ifs at hind
        · cases hind
        · cases hind with
          | head => simp
          | tail _ h => cases h
    · cases hd : delimHead (ch :: cs) with
      | some v =>
        obtain ⟨ty, c2, cs'⟩ := v
        simp only [scanToken, h1, if_false, hd] at ht
        have hty : delimType ch c2 = some ty := by
          have hshape := delimHead_some_shape ch cs ty c2 cs' hd
          subst hshape
          simp only [delimHead] at hd
          cases hdt : delimType ch c2 with
          | none => simp [hdt] at hd
          | some a =>
            simp [hdt] at hd
            simp [hd]
        simp only [List.mem_singleton] at ht
        subst ht
        exact delimType_ne_eof ch c2 ty hty
      | none =>
        simp only [scanToken, h1, if_false, hd] at ht
        split_ifs at ht with h3 h4 hv
        · exact emitIdentOrText_no_eof _ l c t ht
        · cases ht
        · cases ht
        · cases ht with
          | head => simp
          | tail _ h => cases h

theorem scanAllF_no_eof :
    ∀ (fuel : Nat) (s : List Char) (l c : Nat),
      ∀ t ∈ (scanAllF fuel s l c).1, t.type ≠ .EOF := by
  intro fuel
  induction fuel with
  | zero => intro s l c t ht; simp [scanAllF] at ht
  | succ fuel ih =>
    intro s l c t ht
    cases s with
    | nil => simp [scanAllF] at ht
    | cons ch cs =>
      simp only [scanAllF, List.mem_append] at ht
      rcases ht with h | h
      · exact scanToken_no_eof _ _ _ t h
      · exact ih _ _ _ t h

/-- C9: every tokenizer scan step consumes at least one character, so
tokenize terminates for every input; the token list it returns contains
exactly one EOF token, and that token is its final element. -/
theorem C9_tokenize_total_single_eof :
    (∀ (s : List Char) (l c : Nat), s ≠ [] →
      ((scanToken s l c).2.1).length < s.length) ∧
    (∀ s : String, ∃ (body : List Tok) (l c : Nat),
      tokenizeSource s = body ++ [⟨.EOF, "", l, c⟩] ∧
      ∀ t ∈ body, t.type ≠ .EOF) := by
  refine ⟨scanToken_progress, ?_⟩
  intro s
  refine ⟨(scanAllF (List.length (expandTabs s.data 0) + 1)
      (expandTabs s.data 0) 1 1).1, _, _, rfl, ?_⟩
  exact fun t ht => scanAllF_no_eof _ _ _ _ t ht

/-- Witness for C9 at concrete inputs. -/
theorem C9_tokenize_total_single_eof_witness :
    ((scanToken "ab".data 1 1).2.1).length < "ab".data.length ∧
    (∃ (body : List Tok) (l c : Nat),
      tokenizeSource "div" = body ++ [⟨.EOF, "", l, c⟩] ∧
      ∀ t ∈ body, t.type ≠ .EOF) :=
  ⟨C9_tokenize_total_single_eof.1 "ab".data 1 1 (by decide),
   C9_tokenize_total_single_eof.2 "div"⟩

def countDedent (l : List Tok) : Nat :=
  (l.filter (fun t => t.type = .DEDENT)).length

theorem countDedent_append (a b : List Tok) :
    countDedent (a ++ b) = countDedent a + countDedent b := by
  simp [countDedent, List.filter_append]

theorem countDedent_single (t : Tok) (h : t.type ≠ .DEDENT) :
    countDedent [t] = 0 := by
  simp [countDedent, h]

theorem countDedent_replicate (n : Nat) (p : Tok) :
    countDedent (List.replicate n (synthDedent p)) = n := by
  induction n with
  | zero => rfl
  | succ n ih => simp [countDedent, List.replicate_succ, synthDedent] at ih ⊢

theorem skipCommentLoop_subset : ∀ (ts : List Tok), ∀ x ∈ skipCommentLoop ts, x ∈ ts := by
  intro ts
  induction ts with
  | nil => intro x hx; cases hx
  | cons t ts ih =>
    intro x hx
    unfold skipCommentLoop at hx
    split_ifs at hx with h1
    · exact List.mem_cons_of_mem _ hx
    · exact List.mem_cons_of_mem _ (ih x hx)

theorem groupVarLoop_subset (st : Tok) :
    ∀ (ts : List Tok) (parts : List String) (content : String) (rest : List Tok),
      groupVarLoop st ts parts = .ok (content, rest) → ∀ x ∈ rest, x ∈ ts := by
  intro ts
  induction ts with
  | nil =>
    intro parts content rest h x hx
    simp only [groupVarLoop, Except.ok.injEq, Prod.mk.injEq] at h
    rw [← h.2] at hx
    cases hx
  | cons t ts ih =>
    intro parts content rest h x hx
    unfold groupVarLoop at h
    split_ifs at h with h1 h2
    · simp only [Except.ok.injEq, Prod.mk.injEq] at h
      rw [← h.2] at hx
      exact List.mem_cons_of_mem _ hx
    · exact List.mem_cons_of_mem _ (ih _ _ _ h x hx)

theorem groupAttrLoop_subset (st : Tok) :
    ∀ (ts : List Tok) (parts : List String) (content : String) (rest : List Tok),
      groupAttrLoop st ts parts = .ok (content, rest) → ∀ x ∈ rest, x ∈ ts := by
  intro ts
  induction ts with
  | nil =>
    intro parts content rest h x hx
    simp only [groupAttrLoop, Except.ok.injEq, Prod.mk.injEq] at h
    rw [← h.2] at hx
    cases hx
  | cons t ts ih =>
    intro parts content rest h x hx
    unfold groupAttrLoop at h
    split_ifs at h with h1 h2
    · simp only [Except.ok.injEq, Prod.mk.injEq] at h
      rw [← h.2] at hx
      exact List.mem_cons_of_mem _ hx
    · exact List.mem_cons_of_mem _ (ih _ _ _ h x hx)

theorem groupImportLoop_subset (st : Tok) :
    ∀ (ts : List Tok) (hasParams : Bool) (pathParts paramParts : List String)
      (content : String) (rest : List Tok),
      groupImportLoop st ts hasParams pathParts paramParts = .ok (content, rest) →
      ∀ x ∈ rest, x ∈ ts := by
  intro ts
  induction ts with
  | nil =>
    intro hp pp qq content rest h x hx
    simp only [groupImportLoop, Except.ok.injEq, Prod.mk.injEq] at h
    rw [← h.2] at hx
    cases hx
  | cons t ts ih =>
    intro hp pp qq content rest h x hx
    unfold groupImportLoop at h
    split_ifs at h with h1 h2 h3 h4
    · simp only [Except.ok.injEq, Prod.mk.injEq] at h
      rw [← h.2] at hx
      exact List.mem_cons_of_mem _ hx
    · exact List.mem_cons_of_mem _ (ih _ _ _ _ _ h x hx)
    · exact List.mem_cons_of_mem _ (ih _ _ _ _ _ h x hx)
    · exact List.mem_cons_of_mem _ (ih _ _ _ _ _ h x hx)

theorem groupJinjaLoop_subset (st : Tok) :
    ∀ (ts : List Tok) (parts : List String) (content : String) (rest : List Tok),
      groupJinjaLoop st ts parts = .ok (content, rest) → ∀ x ∈ rest, x ∈ ts := by
  intro ts
  induction ts with
  | nil =>
    intro parts content rest h x hx
    simp only [groupJinjaLoop, Except.ok.injEq, Prod.mk.injEq] at h
    rw [← h.2] at hx
    cases hx
  | cons t ts ih =>
    intro parts content rest h x hx
    unfold groupJinjaLoop at h
    split_ifs at h with h1 h2
    · simp only [Except.ok.injEq, Prod.mk.injEq] at h
      rw [← h.2] at hx
      exact List.mem_cons_of_mem _ hx
    · exact List.mem_cons_of_mem _ (ih _ _ _ h x hx)

theorem skipJinjaCommentLoop_subset (st : Tok) :
    ∀ (ts : List Tok) (rest : List Tok),
      skipJinjaCommentLoop st ts = .ok rest → ∀ x ∈ rest, x ∈ ts := by
  intro ts
  induction ts with
  | nil =>
    intro rest h x hx
    simp only [skipJinjaCommentLoop, Except.ok.injEq] at h
    rw [← h] at hx
    cases hx
  | cons t ts ih =>
    intro rest h x hx
    unfold skipJinjaCommentLoop at h
    split_ifs at h with h1 h2
    · simp only [Except.ok.injEq] at h
      rw [← h] at hx
      exact List.mem_cons_of_mem _ hx
    · exact List.mem_cons_of_mem _ (ih _ h x hx)

theorem popWider_spec (w : Nat) :
    ∀ stack : List Nat, stack ≠ [] →
      (popWider w stack).1 ≠ [] ∧
      (popWider w stack).1.length + (popWider w stack).2 = stack.length := by
  intro stack
  induction stack with
  | nil => intro h; exact absurd rfl h
  | cons top stk ih =>
    intro _
    cases stk with
    | nil => simp [popWider]
    | cons next stk' =>
      by_cases h : top > w
      · have ⟨ih1, ih2⟩ := ih (by simp)
        simp only [popWider, h, if_true]
        refine ⟨ih1, ?_⟩
        simp only [List.length_cons] at ih2 ⊢
        omega
      · simp [popWider, h]

theorem lexGoF_dedent (lastOf : Tok) :
    ∀ (fuel : Nat) (stack : List Nat) (pushes : Nat) (acc rest : List Tok)
      (out : List Tok) (P : Nat),
      stack ≠ [] →
      (∀ x ∈ rest, x.type ≠ .DEDENT) →
      countDedent acc + stack.length = pushes + 1 →
      lexGoF lastOf fuel stack pushes acc rest = .ok (out, P) →
      countDedent out = P := by
  intro fuel
  induction fuel with
  | zero =>
    intro stack pushes acc rest out P _ _ _ h
    cases h
  | succ fuel ih =>
    intro stack pushes acc rest out P hst hnd hinv h
    cases rest with
    | nil =>
      simp only [lexGoF, Except.ok.injEq, Prod.mk.injEq] at h
      rw [← h.1, ← h.2, countDedent_append, countDedent_replicate]
      have hlen : 1 ≤ stack.length := by
        cases stack with
        | nil => exact absurd rfl hst
        | cons a l => simp
      omega
    | cons t ts =>
      have hndts : ∀ x ∈ ts, x.type ≠ .DEDENT :=
        fun x hx => hnd x (List.mem_cons_of_mem _ hx)
      simp only [lexGoF] at h
      split at h
      · -- COMMENT_START
        exact ih stack pushes acc (skipCommentLoop ts) out P hst
          (fun x hx => hndts x (skipCommentLoop_subset ts x hx)) hinv h
      · -- VAR_START
        split at h
        · cases h
        · rename_i content rest' heq
          refine ih stack pushes _ rest' out P hst
            (fun x hx => hndts x (groupVarLoop_subset t ts [] content rest' heq x hx))
            ?_ h
          rw [countDedent_append, countDedent_single _ (by simp)]
          omega
      · -- ATTR_START
        split at h
        · cases h
        · rename_i content rest' heq
          refine ih stack pushes _ rest' out P hst
            (fun x hx => hndts x (groupAttrLoop_subset t ts [] content rest' heq x hx))
            ?_ h
          rw [countDedent_append, countDedent_single _ (by simp)]
          omega
      · -- IMPORT_START
        split at h
        · cases h
        · rename_i content rest' heq
          refine ih stack pushes _ rest' out P hst
            (fun x hx => hndts x
              (groupImportLoop_subset t ts false [] [] content rest' heq x hx))
            ?_ h
          rw [countDedent_append, countDedent_single _ (by simp)]
          omega
      · -- JINJA_BLOCK_START
        split at h
        · cases h
        · rename_i content rest' heq
          refine ih stack pushes _ rest' out P hst
            (fun x hx => hndts x (groupJinjaLoop_subset t ts [] content rest' heq x hx))
            ?_ h
          rw [countDedent_append, countDedent_single _ (by simp)]
          omega
      · -- JINJA_COMMENT_START
        split at h
        · cases h
        · rename_i rest' heq
          exact ih stack pushes acc rest' out P hst
            (fun x hx => hndts x (skipJinjaCommentLoop_subset t ts rest' heq x hx)) hinv h
      · -- INDENT
        rename_i hty
        split_ifs at h with h1 h2 h3
        · -- push
          refine ih _ (pushes + 1) _ ts out P (by simp) hndts ?_ h
          rw [countDedent_append, countDedent_single _ (by simp [hty])]
          simp only [List.length_cons]
          omega
        · -- pop, residual indent re-emitted
          have ⟨hp1, hp2⟩ := popWider_spec t.value.length stack hst
          refine ih _ pushes _ ts out P hp1 hndts ?_ h
          simp only [countDedent_append, countDedent_replicate]
          rw [countDedent_single _ (by simp [hty])]
          omega
        · -- pop, no residual indent
          have ⟨hp1, hp2⟩ := popWider_spec t.value.length stack hst
          refine ih _ pushes _ ts out P hp1 hndts ?_ h
          simp only [countDedent_append, countDedent_replicate]
          omega
        · -- equal
          refine ih stack pushes _ ts out P hst hndts ?_ h
          rw [countDedent_append, countDedent_single _ (by simp [hty])]
          omega
      · -- default
        rename_i hty1 hty2 hty3 hty4 hty5 hty6 hty7
        refine ih stack pushes _ ts out P hst hndts ?_ h
        rw [countDedent_append, countDedent_single _ (hnd t (by simp))]
        omega

theorem delimType_ne_dedent (c1 c2 : Char) (ty : TokType)
    (h : delimType c1 c2 = some ty) : ty ≠ .DEDENT := by
  unfold delimType at h
  split_ifs at h <;> cases h <;> decide

theorem emitIdentOrText_no_dedent (v : String) (sl sc : Nat) :
    ∀ t ∈ emitIdentOrText v sl sc, t.type ≠ .DEDENT := by
  intro t ht hEof
  unfold emitIdentOrText at ht
  by_cases h1 : v = ""
  · simp [h1] at ht
  · by_cases h2 : reducedIsAlnum v = true
    · by_cases hsp : ' ' ∈ v.data
      · by_cases h3 : isValidElementName (firstWsWord v) = true
        · by_cases h4 : pyLstrip ⟨v.data.drop (firstWsWord v).length⟩ = ""
          · simp_all
          · simp [h1, h2, h3, h4, hsp] at ht
            rcases ht with rfl | rfl <;> exact TokType.noConfusion hEof
        · simp_all
      · by_cases h3 : isValidElementName v = true
        · by_cases h4 : pyLstrip ⟨v.data.drop v.length⟩ = ""
          · simp_all
          · simp [h1, h2, h3, h4, hsp] at ht
            rcases ht with rfl | rfl <;> exact TokType.noConfusion hEof
        · simp_all
    · simp_all

theorem scanToken_no_dedent (s : List Char) (l c : Nat) :
    ∀ t ∈ (scanToken s l c).1, t.type ≠ .DEDENT := by
  intro t ht
  cases s with
  | nil => simp [scanToken] at ht
  | cons ch cs =>
    by_cases h1 : ch = '\n'
    · simp only [scanToken, h1, if_true] at ht
      rcases ht with _ | ⟨_, hind⟩
      · simp
      · simp only [scanIndentation] at hind
        split_ifs at hind
        · cases hind
        · cases hind with
          | head => simp
          | tail _ h => cases h
    · cases hd : delimHead (ch :: cs) with
      | some v =>
        obtain ⟨ty, c2, cs'⟩ := v
        simp only [scanToken, h1, if_false, hd] at ht
        have hty : delimType ch c2 = some ty := by
          have hshape := delimHead_some_shape ch cs ty c2 cs' hd
          subst hshape
          simp only [delimHead] at hd
          cases hdt : delimType ch c2 with
          | none => simp [hdt] at hd
          | some a =>
            simp [hdt] at hd
            simp [hd]
        simp only [List.mem_singleton] at ht
        subst ht
        exact delimType_ne_dedent ch c2 ty hty
      | none =>
        simp only [scanToken, h1, if_false, hd] at ht
        split_ifs at ht with h3 h4 hv
        · exact emitIdentOrText_no_dedent _ l c t ht
        · cases ht
        · cases ht
        · cases ht with
          | head => simp
          | tail _ h => cases h

theorem scanAllF_no_dedent :
    ∀ (fuel : Nat) (s : List Char) (l c : Nat),
      ∀ t ∈ (scanAllF fuel s l c).1, t.type ≠ .DEDENT := by
  intro fuel
  induction fuel with
  | zero => intro s l c t ht; simp [scanAllF] at ht
  | succ fuel ih =>
    intro s l c t ht
    cases s with
    | nil => simp [scanAllF] at ht
    | cons ch cs =>
      simp only [scanAllF, List.mem_append] at ht
      rcases ht with h | h
      · exact scanToken_no_dedent _ _ _ t h
      · exact ih _ _ _ t h

theorem tokenizeSource_no_dedent (s : String) :
    ∀ t ∈ tokenizeSource s, t.type ≠ .DEDENT := by
  intro t ht
  unfold tokenizeSource tokenizeChars at ht
  simp only [List.mem_append] at ht
  rcases ht with h | h
  · exact scanAllF_no_dedent _ _ _ _ t h
  · cases h with
    | head => simp
    | tail _ hh => cases hh

/-- C3: for every source whose token stream the lexer processes
successfully, the number of DEDENT tokens it emits equals the number of
widths pushed onto the indent stack (which starts at [0]): narrower INDENTs
emit one DEDENT per pop, and the end-of-stream flush emits one DEDENT per
remaining entry above the base, so pushes and DEDENTs balance exactly. -/
theorem C3_dedent_balance (s : String) (out : List Tok) (pushes : Nat)
    (h : lexProcessI (tokenizeSource s) = .ok (out, pushes)) :
    countDedent out = pushes := by
  unfold lexProcessI at h
  exact lexGoF_dedent _ _ [0] 0 [] (tokenizeSource s) out pushes (by simp)
    (fun x hx => tokenizeSource_no_dedent s x hx) (by simp [countDedent]) h


/-- Witness for C3 on a concrete indented source. -/
theorem C3_dedent_balance_witness :
    countDedent
      [⟨.IDENTIFIER, "div", 1, 1⟩, ⟨.NEWLINE, "\n", 1, 4⟩,
       ⟨.INDENT, "    ", 2, 1⟩, ⟨.IDENTIFIER, "a", 2, 5⟩,
       ⟨.EOF, "", 2, 6⟩, ⟨.DEDENT, "", 2, 6⟩] = 1 :=
  C3_dedent_balance "div\n    a" _ 1 rfl



/-- Token types outside the dispatch of PypxParser._parse_node: not the
end or structure tokens it consumes, and not a content token it parses. -/
def unknownTokType (ty : TokType) : Bool :=
  !(ty = .NEWLINE || ty = .EOF || ty = .INDENT || ty = .DEDENT ||
    ty = .IDENTIFIER || ty = .VAR_CONTENT || ty = .IMPORT_CONTENT ||
    ty = .JINJA_BLOCK || ty = .ATTR_CONTENT || ty = .TEXT)

/-- C8: the parser never raises (parseDocF is a total function into a
Document) and a token whose type has no parse rule is logged as a warning,
skipped, and parsing continues: the parse of a stream headed by an unknown
token equals the parse of its tail (with one loop iteration of budget
spent) plus the logged warning. -/
theorem C8_parser_skips_unknown (fuel ind : Nat) (u : Tok) (ts : List Tok)
    (h : unknownTokType u.type = true) :
    parseDocF (fuel + 2) ind (u :: ts)
      = ⟨(parseDocF (fuel + 1) ind ts).nodes,
         (parseDocF (fuel + 1) ind ts).ind,
         (parseDocF (fuel + 1) ind ts).rest,
         unexpectedTokenWarning u :: (parseDocF (fuel + 1) ind ts).warns⟩ := by
  simp only [unknownTokType, Bool.not_eq_true', Bool.or_eq_false_iff,
    decide_eq_false_iff_not] at h
  obtain ⟨⟨⟨⟨⟨⟨⟨⟨⟨hnl, heof⟩, hind⟩, hded⟩, hid⟩, hvar⟩, himp⟩, hjin⟩, hattr⟩, htxt⟩ := h
  have hnode : parseNodeF (fuel + 1) ind (u :: ts)
      = ⟨none, ind, ts, [unexpectedTokenWarning u]⟩ := by
    unfold parseNodeF parseStepF
    rw [List.dropWhile_cons]
    simp [hnl, heof, hind, hded, hid, hvar, himp, hjin, hattr, htxt, asNodeRes]
  have hae : atEnd (u :: ts) = false := by simp [atEnd, heof]
  conv_lhs => rw [parseDocF]
  rw [hae]
  simp only [Bool.false_eq_true, if_false]
  rw [hnode]
  rfl

/-- Witness for C8 on a concrete WHITESPACE token stream. -/
theorem C8_parser_skips_unknown_witness :
    parseDocF 5 0 [⟨.WHITESPACE, " ", 1, 1⟩, ⟨.EOF, "", 1, 2⟩]
      = ⟨[], 0, [⟨.EOF, "", 1, 2⟩], ["Unexpected token type: WHITESPACE"]⟩ := by
  rw [show (5 : Nat) = 3 + 2 from rfl,
    C8_parser_skips_unknown 3 0 ⟨.WHITESPACE, " ", 1, 1⟩ [⟨.EOF, "", 1, 2⟩]
      (by decide)]
  rfl

/-- Characters the identifier-collection loop of the tokenizer accepts. -/
def identChar (x : Char) : Bool := pyIsAlnum x || x = '_' || x = '-' || x = '!'

/-- Characters the free-text tail may contain in the C1 line shape. -/
def tailChar (x : Char) : Bool := identChar x || x = ' '

/-- First characters of the two-character delimiters. -/
def delimFirstChars : List Char :=
  [':', '\x7b', '\x7d', ';', '[', ']', '|', '%', '#']

theorem identChar_not_first (x : Char) (h : identChar x = true) :
    x ∉ delimFirstChars := by
  intro hx
  fin_cases hx <;> exact absurd h (by decide)

theorem tailChar_not_first (x : Char) (h : tailChar x = true) :
    x ∉ delimFirstChars := by
  intro hx
  fin_cases hx <;> exact absurd h (by decide)

theorem identChar_ne_nl (x : Char) (h : identChar x = true) : x ≠ '\n' := by
  intro hx
  subst hx
  exact absurd h (by decide)

theorem tailChar_ne_nl (x : Char) (h : tailChar x = true) : x ≠ '\n' := by
  intro hx
  subst hx
  exact absurd h (by decide)

theorem identChar_not_space (x : Char) (h : identChar x = true) :
    isPySpace x = false := by
  rcases hx : isPySpace x with _ | _
  · rfl
  · exfalso
    simp only [isPySpace, Bool.or_eq_true, decide_eq_true_eq] at hx
    rcases hx with ((((rfl | rfl) | rfl) | rfl) | rfl) | rfl <;>
      exact absurd h (by decide)

theorem identChar_ne_tab (x : Char) (h : identChar x = true) : x ≠ '\t' := by
  intro hx
  subst hx
  exact absurd h (by decide)

theorem alnum_not_sep (x : Char) (h : pyIsAlnum x = true) :
    (x = '-' || x = '_' || x = '!' || x = ' ') = false := by
  rcases hx : (x = '-' || x = '_' || x = '!' || x = ' ' : Bool) with _ | _
  · rfl
  · exfalso
    simp only [Bool.or_eq_true, decide_eq_true_eq] at hx
    rcases hx with ((rfl | rfl) | re) | rfl
    · exact absurd h (by decide)
    · exact absurd h (by decide)
    · subst re; exact absurd h (by decide)
    · exact absurd h (by decide)

theorem delimType_some_first (c c2 : Char) (ty : TokType)
    (h : delimType c c2 = some ty) : c ∈ delimFirstChars := by
  unfold delimType at h
  split_ifs at h with h1 h2 h3 h4 h5 h6 h7 h8 h9 h10 h11 <;>
    simp_all [delimFirstChars]

theorem delimType_none_of_not_first (c c2 : Char) (h : c ∉ delimFirstChars) :
    delimType c c2 = none := by
  cases hdt : delimType c c2 with
  | none => rfl
  | some ty => exact absurd (delimType_some_first c c2 ty hdt) h

theorem delimHead_none_of_not_first (c : Char) (u : List Char)
    (h : c ∉ delimFirstChars) : delimHead (c :: u) = none := by
  cases u with
  | nil => rfl
  | cons y u' => simp [delimHead, delimType_none_of_not_first c y h]

theorem isDelimAt_false_of_not_first (c : Char) (u : List Char)
    (h : c ∉ delimFirstChars) : isDelimAt (c :: u) = false := by
  cases u with
  | nil => rfl
  | cons y u' => simp [isDelimAt, delimType_none_of_not_first c y h]

theorem scanTextUntilDelim_run :
    ∀ (u : List Char) (col : Nat),
      (∀ x ∈ u, x ∉ delimFirstChars ∧ x ≠ '\n') →
      scanTextUntilDelim u col = (⟨u⟩, [], col + u.length) := by
  intro u
  induction u with
  | nil => intro col _; rfl
  | cons x u' ih =>
    intro col hx
    have h1 := hx x (List.mem_cons_self x u')
    rw [scanTextUntilDelim, if_neg (by simp [isDelimAt_false_of_not_first x u' h1.1]),
      if_neg h1.2, ih (col + 1) (fun y hy => hx y (List.mem_cons_of_mem _ hy))]
    simp only [Prod.mk.injEq, List.length_cons]
    exact ⟨rfl, trivial, by omega⟩

theorem scanIdentCollect_run :
    ∀ (w : List Char) (u : List Char) (col : Nat),
      (∀ x ∈ w, identChar x = true) →
      (∀ x ∈ u, x ∉ delimFirstChars ∧ x ≠ '\n') →
      (∀ (x : Char) (u' : List Char), u = x :: u' → x ∉ delimFirstChars ∧
        (pyIsAlnum x || x = '_' || x = '-' || x = '!') = false) →
      scanIdentCollect (w ++ u) col = (⟨w ++ u⟩, [], col + (w ++ u).length) := by
  intro w
  induction w with
  | nil =>
    intro u col _ hu hh
    cases u with
    | nil => rfl
    | cons x u' =>
      have h1 := hh x u' rfl
      rw [List.nil_append, scanIdentCollect,
        if_neg (by simp [isDelimAt_false_of_not_first x u' h1.1]),
        if_neg (hu x (List.mem_cons_self x u')).2, if_neg (by simp [h1.2]),
        scanTextUntilDelim_run (x :: u') col hu]
  | cons c w' ih =>
    intro u col hw hu hh
    have h1 := hw c (List.mem_cons_self c w')
    rw [List.cons_append, scanIdentCollect,
      if_neg (by simp [isDelimAt_false_of_not_first c (w' ++ u)
        (identChar_not_first c h1)]),
      if_neg (identChar_ne_nl c h1),
      if_pos (by simpa [identChar] using h1),
      ih u (col + 1) (fun y hy => hw y (List.mem_cons_of_mem _ hy)) hu hh]
    simp only [Prod.mk.injEq, List.length_cons, List.cons_append,
      List.length_append]
    exact ⟨rfl, trivial, by omega⟩

theorem tailChar_of_identChar (y : Char) (h : identChar y = true) :
    tailChar y = true := by
  simp [tailChar, h]

theorem identChar_of_tail_ne_space (y : Char) (h : tailChar y = true)
    (hy : y ≠ ' ') : identChar y = true := by
  simp only [tailChar, Bool.or_eq_true, decide_eq_true_eq] at h
  rcases h with h | h
  · exact h
  · exact absurd h hy

theorem classChar_alnum (y : Char) (hy : tailChar y = true)
    (hp : (y = '-' || y = '_' || y = '!' || y = ' ') = false) :
    pyIsAlnum y = true := by
  simp only [Bool.or_eq_false_iff, decide_eq_false_iff_not] at hp
  obtain ⟨⟨⟨hm, hu⟩, hb⟩, hs⟩ := hp
  have h2 := identChar_of_tail_ne_space y hy hs
  simp only [identChar, Bool.or_eq_true, decide_eq_true_eq] at h2
  rcases h2 with ((h2 | h2) | h2) | h2
  · exact h2
  · exact absurd h2 hu
  · exact absurd h2 hm
  · exact absurd h2 hb

theorem isEmpty_false_of_mem {α : Type} {x : α} {l : List α} (h : x ∈ l) :
    l.isEmpty = false := by
  cases l with
  | nil => cases h
  | cons a l => rfl

theorem string_mk_cons_ne_empty (x : Char) (l : List Char) :
    (⟨x :: l⟩ : String) ≠ "" := by
  intro h
  have h2 := congrArg String.data h
  simp at h2

theorem emitIdentOrText_run (c d : Char) (w' t' : List Char) (sl sc : Nat)
    (hw : ∀ x ∈ c :: w', identChar x = true)
    (hd : d ≠ ' ')
    (ht : ∀ x ∈ d :: t', tailChar x = true)
    (halnum : ∃ x, (x ∈ c :: w' ∨ x ∈ d :: t') ∧ pyIsAlnum x = true) :
    emitIdentOrText ⟨(c :: w') ++ ' ' :: d :: t'⟩ sl sc
      = if isValidElementName ⟨c :: w'⟩ then
          [⟨.IDENTIFIER, ⟨c :: w'⟩, sl, sc⟩,
           ⟨.TEXT, ⟨d :: t'⟩, sl, sc + (⟨c :: w'⟩ : String).length + 1⟩]
        else [⟨.TEXT, ⟨(c :: w') ++ ' ' :: d :: t'⟩, sl, sc⟩] := by
  have hne : (⟨(c :: w') ++ ' ' :: d :: t'⟩ : String) ≠ "" := by
    rw [List.cons_append]
    exact string_mk_cons_ne_empty _ _
  have hmemL : ∀ y ∈ (c :: w') ++ ' ' :: d :: t', tailChar y = true ∨ y = ' ' := by
    intro y hy
    rcases List.mem_append.mp hy with h | h
    · exact Or.inl (tailChar_of_identChar y (hw y h))
    · cases h with
      | head => exact Or.inr rfl
      | tail _ h2 => exact Or.inl (ht y h2)
  have hred : reducedIsAlnum ⟨(c :: w') ++ ' ' :: d :: t'⟩ = true := by
    obtain ⟨x, hx, hxa⟩ := halnum
    have hxL : x ∈ (c :: w') ++ ' ' :: d :: t' := by
      rcases hx with h | h
      · exact List.mem_append_left _ h
      · exact List.mem_append_right _ (List.mem_cons_of_mem _ h)
    have hxp : (!(x = '-' || x = '_' || x = '!' || x = ' ')) = true := by
      rw [alnum_not_sep x hxa]
      rfl
    simp only [reducedIsAlnum, dropSepChars, Bool.and_eq_true,
      Bool.not_eq_true', List.all_eq_true]
    constructor
    · exact isEmpty_false_of_mem (List.mem_filter.mpr ⟨hxL, hxp⟩)
    · intro y hy
      have ⟨hyL, hyp⟩ := List.mem_filter.mp hy
      rcases hmemL y hyL with hty | rfl
      · exact classChar_alnum y hty (by simpa using hyp)
      · simp at hyp
  have hcontains : (⟨(c :: w') ++ ' ' :: d :: t'⟩ : String).data.contains ' ' = true := by
    simp only [String.data]
    have hsp : ' ' ∈ (c :: w') ++ ' ' :: d :: t' :=
      List.mem_append_right _ (List.mem_cons_self _ _)
    simp
  have hnospace : ∀ x ∈ c :: w', (!isPySpace x) = true := by
    intro x hx
    rw [identChar_not_space x (hw x hx)]
    rfl
  have hfw : firstWsWord ⟨(c :: w') ++ ' ' :: d :: t'⟩ = ⟨c :: w'⟩ := by
    unfold firstWsWord
    simp only [String.data]
    rw [List.cons_append,
      List.dropWhile_cons_of_neg (by
        rw [identChar_not_space c (hw c (List.mem_cons_self c w'))]
        simp),
      ← List.cons_append,
      List.takeWhile_append_of_pos hnospace,
      List.takeWhile_cons_of_neg (by simp [isPySpace]),
      List.append_nil]
  have hdrop : (⟨(c :: w') ++ ' ' :: d :: t'⟩ : String).data.drop
      ((⟨c :: w'⟩ : String).length) = ' ' :: d :: t' := by
    simp only [String.data, String.length]
    exact List.drop_left _ _
  have hlstrip : pyLstrip ⟨' ' :: d :: t'⟩ = ⟨d :: t'⟩ := by
    unfold pyLstrip
    simp only [String.data]
    rw [List.dropWhile_cons_of_pos (by simp [isPySpace]),
      List.dropWhile_cons_of_neg (by
        rw [identChar_not_space d
          (identChar_of_tail_ne_space d (ht d (List.mem_cons_self d t')) hd)]
        simp)]
  have hrestne : (⟨d :: t'⟩ : String) ≠ "" := string_mk_cons_ne_empty d t'
  rw [emitIdentOrText, if_neg hne, if_pos hred]
  simp only [hcontains, if_true, hfw, hdrop, hlstrip]
  by_cases hv : isValidElementName ⟨c :: w'⟩ = true
  · rw [if_pos hv, if_pos hv, if_neg hrestne]
  · rw [if_neg hv, if_neg hv]

theorem expandTabs_id :
    ∀ (u : List Char) (col : Nat), (∀ x ∈ u, x ≠ '\t') →
      expandTabs u col = u := by
  intro u
  induction u with
  | nil => intro col _; rfl
  | cons x u' ih =>
    intro col hx
    rw [expandTabs, if_neg (hx x (List.mem_cons_self x u'))]
    by_cases hnl : (x = '\n' || x = '\r') = true
    · rw [if_pos hnl, ih 0 (fun y hy => hx y (List.mem_cons_of_mem _ hy))]
    · rw [if_neg hnl, ih (col + 1) (fun y hy => hx y (List.mem_cons_of_mem _ hy))]

theorem scanAllF_nil (fuel l c : Nat) : scanAllF fuel [] l c = ([], l, c) := by
  cases fuel <;> rfl

theorem tailChar_ne_tab (x : Char) (h : tailChar x = true) : x ≠ '\t' := by
  intro hx
  subst hx
  exact absurd h (by decide)

/-- C1 amended: a line consisting of an identifier-shaped run followed by a
space and more text is split at the first whitespace-delimited word, and
that word is emitted as IDENTIFIER exactly when it passes the shape check
_is_valid_element_name (first character a letter or '!', rest
alphanumeric, '-' or '_'); otherwise the whole line is one TEXT token.  No
HTML element-name set takes part in the decision. -/
theorem C1_identifier_by_shape (c d : Char) (w' t' : List Char)
    (hfirst : (pyIsAlpha c || c = '_' || c = '!') = true)
    (hw : ∀ x ∈ c :: w', identChar x = true)
    (hd : d ≠ ' ')
    (ht : ∀ x ∈ d :: t', tailChar x = true)
    (halnum : ∃ x, (x ∈ c :: w' ∨ x ∈ d :: t') ∧ pyIsAlnum x = true) :
    tokenizeSource ⟨(c :: w') ++ ' ' :: d :: t'⟩
      = (if isValidElementName ⟨c :: w'⟩ then
          [⟨.IDENTIFIER, ⟨c :: w'⟩, 1, 1⟩,
           ⟨.TEXT, ⟨d :: t'⟩, 1, 1 + (⟨c :: w'⟩ : String).length + 1⟩]
         else [⟨.TEXT, ⟨(c :: w') ++ ' ' :: d :: t'⟩, 1, 1⟩])
        ++ [⟨.EOF, "", 1, 1 + ((c :: w') ++ ' ' :: d :: t').length⟩] := by
  have hnotab : ∀ x ∈ (c :: w') ++ ' ' :: d :: t', x ≠ '\t' := by
    intro x hx
    rcases List.mem_append.mp hx with h | h
    · exact identChar_ne_tab x (hw x h)
    · cases h with
      | head => decide
      | tail _ h2 => exact tailChar_ne_tab x (ht x h2)
  have hcid := hw c (List.mem_cons_self c w')
  have htail : ∀ x ∈ ' ' :: d :: t', x ∉ delimFirstChars ∧ x ≠ '\n' := by
    intro x hx
    cases hx with
    | head => exact ⟨by decide, by decide⟩
    | tail _ h2 =>
      exact ⟨tailChar_not_first x (ht x h2), tailChar_ne_nl x (ht x h2)⟩
  have hscan : scanIdentCollect ((c :: w') ++ ' ' :: d :: t') 1
      = (⟨(c :: w') ++ ' ' :: d :: t'⟩, [],
         1 + ((c :: w') ++ ' ' :: d :: t').length) :=
    scanIdentCollect_run (c :: w') (' ' :: d :: t') 1 hw htail
      (fun x u' hxu => by
        cases hxu
        exact ⟨by decide, by decide⟩)
  have hstep : scanToken ((c :: w') ++ ' ' :: d :: t') 1 1
      = (emitIdentOrText ⟨(c :: w') ++ ' ' :: d :: t'⟩ 1 1, [],
         1, 1 + ((c :: w') ++ ' ' :: d :: t').length) := by
    rw [List.cons_append, scanToken,
      if_neg (identChar_ne_nl c hcid),
      delimHead_none_of_not_first c _ (identChar_not_first c hcid)]
    rw [← List.cons_append, if_pos hfirst, hscan]
  unfold tokenizeSource
  rw [expandTabs_id _ 0 (by simpa using hnotab)]
  unfold tokenizeChars
  have hL : (c :: w') ++ ' ' :: d :: t' = c :: (w' ++ ' ' :: d :: t') :=
    List.cons_append c w' _
  rw [hL, scanAllF, ← hL, hstep, scanAllF_nil,
    emitIdentOrText_run c d w' t' 1 1 hw hd ht halnum]
  simp only [List.append_nil]


/-- C1 counterexample: the first word "zzz" of the line "zzz more" matches
no HTML element-name set of the program, case-insensitively or otherwise,
yet the tokenizer emits it as an IDENTIFIER token (followed by a TEXT
token) instead of emitting the whole run as TEXT. -/
theorem C1_unknown_word_still_identifier :
    tokenizeSource "zzz more"
      = [⟨.IDENTIFIER, "zzz", 1, 1⟩, ⟨.TEXT, "more", 1, 5⟩, ⟨.EOF, "", 1, 9⟩] ∧
    "zzz" ∉ HTML_ELEMENTS ∧ "zzz" ∉ ELEMENTS_WITH_CLOSING_TAG ∧
    "zzz" ∉ VOID_ELEMENTS ∧ pyLower "zzz" = "zzz" := by
  exact ⟨rfl, by decide, by decide, by decide, rfl⟩

/-- Witness for C1 at the concrete line "zzz more". -/
theorem C1_identifier_by_shape_witness :
    tokenizeSource "zzz more"
      = [⟨.IDENTIFIER, "zzz", 1, 1⟩, ⟨.TEXT, "more", 1, 5⟩, ⟨.EOF, "", 1, 9⟩] := by
  have h := C1_identifier_by_shape 'z' 'm' ['z', 'z'] ['o', 'r', 'e']
    (by decide) (by decide) (by decide) (by decide)
    ⟨'z', Or.inl (List.mem_cons_self _ _), by decide⟩
  exact h.trans (by decide)


end Xtracto
